import Mathlib

/-!
Verification of the upkit-common X.509 certificate core.

This file gives a shallow embedding, in Lean 4, of the parts of the
upkit-common-x509 Rust crate that the checked specification claims talk
about: serial-number generation, the typed extension model with its
encode/decode pairs, the extensions builder, the certificate parser
readers, and the certificate-path validator with its extension checkers.

Modelling conventions:
- Rust byte buffers are `List Nat` (each entry is a byte value; external
  PRNG output is reduced mod 256 at the fill boundary).
- Rust `String` values are `List Char`.
- Machine integers are `Nat` or `Int`.
- A Rust panic (for example a failed `unwrap`) is the distinguished result
  `PResult.panic`; value-returned errors keep their error kind.
- The external ASN.1 codec (the rasn crate) is abstracted: a DER-encoded
  inner value is represented by the inductive `ExtnVal`, and decoding a
  value as a given ASN.1 type succeeds exactly when the value is of the
  corresponding shape. Fields that the code only re-encodes and compares
  (subject, issuer, TBS, SPKI) are carried as their encodings.
- External collaborators (digest/fingerprint, signature engines, idna
  punycode, std lowercase and IP formatting) are function parameters.
-/

/-- Bytes of a DER blob or buffer, one `Nat` per octet. -/
abbrev Bytes : Type := List Nat

/-- Object identifier, as the list of its arcs (Rust `Vec<u32>`). -/
abbrev Oid : Type := List Nat

/-- Rust string content, one entry per `char`. -/
abbrev Str : Type := List Char

/-- Result of running Rust code that may panic: either a value or a panic
(from `unwrap`, `todo!`, an out-of-bounds index, and so on). -/
inductive PResult (α : Type) where
  | ok : α → PResult α
  | panic : PResult α
deriving DecidableEq, Repr

namespace PResult

/-- Map over a non-panicking result. -/
def map {α β : Type} (f : α → β) : PResult α → PResult β
  | .ok a => .ok (f a)
  | .panic => .panic

/-- Sequence two possibly panicking computations. -/
def bind {α β : Type} : PResult α → (α → PResult β) → PResult β
  | .ok a, f => f a
  | .panic, _ => .panic

/-- True when the computation returned a value instead of panicking. -/
def isOk {α : Type} : PResult α → Prop
  | .ok _ => True
  | .panic => False

instance {α : Type} (r : PResult α) : Decidable r.isOk := by
  cases r <;> simp [isOk] <;> infer_instance

end PResult

/-- Panic-propagating map over a list (each element may panic). -/
def pmapList {α β : Type} (f : α → PResult β) : List α → PResult (List β)
  | [] => .ok []
  | a :: t => (f a).bind fun b => (pmapList f t).map (b :: ·)

/-!
## SerialNumber (src/cert/types/serial_number.rs)

`SerialNumber::generate` draws `octets.unwrap_or(20).clamp(9, 20)` bytes
from the external CSPRNG, clears the top bit of the first byte, and
retries while the buffer is all zero. The PRNG is modelled as a function
`fills : Nat → Nat → Nat` giving byte `i` of fill attempt `k` (reduced
mod 256 at the boundary, since the collaborator writes bytes); the retry
loop carries explicit fuel and returns `none` while still looping.
-/

namespace SerialNumberM

/-- Rust `x.clamp(9, 20)` for `Nat`. -/
def rustClamp (x : Nat) : Nat := min (max x 9) 20

/-- One PRNG fill of a buffer of length `octets` (attempt number `k`). -/
def prngFill (fills : Nat → Nat → Nat) (k octets : Nat) : List Nat :=
  (List.range octets).map (fun i => fills k i % 256)

/-- Model of `rnd[0] &= 0x7f`: clear the top bit of the first byte. -/
def maskTopBit : List Nat → List Nat
  | [] => []
  | h :: t => h % 128 :: t

/-- The generation retry loop of `SerialNumber::generate`. -/
def generateLoop (octets : Nat) (fills : Nat → Nat → Nat) : Nat → Nat → Option (List Nat)
  | _, 0 => none
  | k, fuel + 1 =>
      let rnd := maskTopBit (prngFill fills k octets)
      if rnd.any (fun o => o ≠ 0) then some rnd else generateLoop octets fills (k + 1) fuel

/-- Model of `SerialNumber::generate`. -/
def generate (octets : Option Nat) (fills : Nat → Nat → Nat) (fuel : Nat) : Option (List Nat) :=
  generateLoop (rustClamp (octets.getD 20)) fills 0 fuel

end SerialNumberM

/-!
## Abstract rasn values

Inner DER blobs (extension values, policy qualifiers) are abstracted by
inductives whose constructors are the ASN.1 shapes the code encodes or
decodes; decoding as a type succeeds exactly on the matching shape and
fails (hence `unwrap` panics) on any other shape, mirroring that a DER
blob decodes as a given ASN.1 type only when it is an encoding of it.
-/

/-- Model of rasn `Integer` (src/encdec/rasn.rs): either the fixnum
variant `Integer::Primitive(isize)` or the bignum variant
`Integer::Variable(BigInt)`, both carrying their mathematical value. -/
inductive RasnInteger where
  | primitive : Int → RasnInteger
  | varBig : Int → RasnInteger
deriving DecidableEq, Repr

/-- Model of `integer_as_usize` (src/encdec/rasn.rs): on the primitive
variant, `usize::try_from(..).unwrap()` panics for negative values; on the
bignum variant, a negative sign or a digit count other than one yields 0. -/
def integerAsUsizeE : RasnInteger → PResult Nat
  | .primitive v => if v < 0 then .panic else .ok v.toNat
  | .varBig v => if 0 < v ∧ v < 2 ^ 32 then .ok v.toNat else .ok 0

/-- Model of `integer_as_isize` (src/encdec/rasn.rs): on the bignum
variant the code negates the single 32-bit digit when the sign is minus
or the digit count differs from one; `dig.first().unwrap()` panics when
the value is zero (no digits). -/
def integerAsIsizeE : RasnInteger → PResult Int
  | .primitive v => .ok v
  | .varBig v =>
      if v = 0 then .panic
      else if 0 < v ∧ v < 2 ^ 32 then .ok v
      else .ok (-(v.natAbs % 2 ^ 32 : Nat))

/-- Big-endian bytes of the low 64 bits of an `isize`, as in
`isize::to_be_bytes` used by `integer_as_bytes_be`. -/
def i64BeBytes (v : Int) : List Nat :=
  (List.range 8).map (fun i => ((v.emod (2 ^ 64)).toNat >>> (8 * (7 - i))) % 256)

/-- Big-endian base-256 digits of a natural number (empty for 0). -/
def natBytesBE : Nat → List Nat
  | 0 => []
  | n + 1 => natBytesBE ((n + 1) / 256) ++ [(n + 1) % 256]
decreasing_by exact Nat.div_lt_self (Nat.succ_pos n) (by norm_num)

/-- Model of `BigInt::to_signed_bytes_be`: the shortest big-endian
two-complement encoding of the value. -/
def bigSignedBytesBE (v : Int) : List Nat :=
  if v = 0 then [0]
  else if 0 < v then
    let raw := natBytesBE v.toNat
    if 128 ≤ raw.headD 0 then 0 :: raw else raw
  else
    let m := v.natAbs
    let rawLen := (natBytesBE m).length
    let k := if m ≤ 2 ^ (8 * rawLen - 1) then rawLen else rawLen + 1
    let enc := natBytesBE (2 ^ (8 * k) - m)
    List.replicate (k - enc.length) 0 ++ enc

/-- Model of `integer_as_bytes_be` (src/encdec/rasn.rs). -/
def integerAsBytesBE : RasnInteger → List Nat
  | .primitive v => i64BeBytes v
  | .varBig v => bigSignedBytesBE v

/-- Model of rasn-pkix `DisplayText`: a CHOICE of string encodings. The
BMPString variant carries 16-bit code units. -/
inductive DisplayText where
  | ia5 : Str → DisplayText
  | visible : Str → DisplayText
  | bmp : List Nat → DisplayText
  | utf8 : Str → DisplayText
deriving DecidableEq, Repr

/-- Rust `char::from_u32`: a scalar value outside the surrogate range. -/
def charFromU32 (n : Nat) : Option Char :=
  if h : n.isValidChar then some ⟨⟨n, by
      rcases h with h | h
      · omega
      · omega⟩, by
      rcases h with h | h
      · exact Or.inl (by exact_mod_cast h)
      · exact Or.inr ⟨by exact_mod_cast h.1, by exact_mod_cast h.2⟩⟩
  else none

/-- Model of `display_text_as_string` (src/encdec/rasn.rs): BMP code
units go through `char::from_u32(..).unwrap()`, which panics on
surrogate code units. -/
def displayTextAsString : DisplayText → PResult Str
  | .ia5 s => .ok s
  | .visible s => .ok s
  | .utf8 s => .ok s
  | .bmp units =>
      match units.mapM charFromU32 with
      | some s => .ok s
      | none => .panic

/-- Model of `Ia5String::try_from(&str)`: succeeds exactly when every
character is in the IA5 (7-bit) range. -/
def ia5TryFrom (s : Str) : Option Str :=
  if s.all (fun c => c.toNat ≤ 127) then some s else none

/-!
## UTF-8 byte-length truncation (Rust `String::truncate`)

`String::truncate(new_len)` cuts at a BYTE index: it is a no-op when
`new_len` is at least the byte length, keeps the first `new_len` bytes
when that index falls on a character boundary, and panics otherwise.
-/

/-- UTF-8 byte length of a string. -/
def strBytes (s : Str) : Nat := (s.map Char.utf8Size).sum

/-- Model of Rust `String::truncate` at a byte budget: `none` is the
panic on a byte index that is not a character boundary. -/
def rustTruncate : Str → Nat → Option Str
  | _, 0 => some []
  | [], _ => some []
  | c :: t, b + 1 =>
      if c.utf8Size ≤ b + 1 then (rustTruncate t (b + 1 - c.utf8Size)).map (c :: ·)
      else none

/-!
## CertificatePolicy (src/cert/extensions/certificate_policies.rs)
-/

/-- Model of the qualifier `Any` payload of a `PolicyQualifierInfo`: the
DER blob is either an encoding of a `DisplayText`, of a `UserNotice`, or
of something else. -/
inductive QualVal where
  | dt : DisplayText → QualVal
  | un : Option (DisplayText × List RasnInteger) → Option DisplayText → QualVal
  | rawq : List Nat → QualVal
deriving DecidableEq, Repr

/-- Decode the qualifier blob as `DisplayText` (rasn `der::decode`). -/
def decodeDisplayText : QualVal → Option DisplayText
  | .dt d => some d
  | _ => none

/-- Decode the qualifier blob as `UserNotice` (rasn `der::decode`). The
pair is (organisation, notice numbers) of the optional NoticeReference,
the second component the optional explicit text. -/
def decodeUserNotice : QualVal → Option (Option (DisplayText × List RasnInteger) × Option DisplayText)
  | .un nr et => some (nr, et)
  | _ => none

/-- Model of rasn-pkix `PolicyQualifierInfo`. -/
structure PolicyQualifierInfo where
  id : Oid
  qualifier : QualVal
deriving DecidableEq, Repr

/-- Model of rasn-pkix `PolicyInformation`. -/
structure PolicyInformation where
  policyIdentifier : Oid
  policyQualifiers : Option (List PolicyQualifierInfo)
deriving DecidableEq, Repr

/-- Typed certificate policy model (enum `CertificatePolicy`). -/
inductive CertificatePolicy where
  | oidPolicy (oid : Oid)
  | cspPolicy (oid : Oid) (uri : Str)
  | userNoticePolicy (oid : Oid) (noticeRef : Option (Str × List Int)) (explicitText : Option Str)
deriving DecidableEq, Repr

namespace CertificatePolicy

/-- OID of the certificatePolicies extension. -/
def extOid : Oid := [2, 5, 29, 32]

/-- OID of the CPS pointer qualifier. -/
def oidQualifierIdCps : Oid := [1, 3, 6, 1, 5, 5, 7, 2, 1]

/-- OID of the user notice qualifier. -/
def oidQualifierIdUnotice : Oid := [1, 3, 6, 1, 5, 5, 7, 2, 2]

/-- Model of `as_oid_policy`. -/
def asOidPolicy (oid : Oid) : PolicyInformation :=
  { policyIdentifier := oid, policyQualifiers := none }

/-- Model of `as_csp_policy`: the CPS URI goes through
`Ia5String::try_from(..).unwrap()` (panics on non-IA5 text) and is
DER-encoded as an IA5String, which later decodes as the IA5 variant of
`DisplayText`. -/
def asCspPolicy (oid : Oid) (cspUri : Str) : PResult PolicyInformation :=
  match ia5TryFrom cspUri with
  | none => .panic
  | some s =>
      .ok { policyIdentifier := oid,
            policyQualifiers := some [{ id := oidQualifierIdCps, qualifier := .dt (.ia5 s) }] }

/-- The explicit-text emission of `as_user_notice_policy`: empty text is
filtered out, remaining text is truncated at 200 BYTES by
`String::truncate` (which panics when byte 200 is inside a character). -/
def emitExplicitText : Option Str → PResult (Option Str)
  | none => .ok none
  | some s =>
      if s.isEmpty then .ok none
      else
        match rustTruncate s 200 with
        | some r => .ok (some r)
        | none => .panic

/-- Model of `as_user_notice_policy`. -/
def asUserNoticePolicy (oid : Oid) (noticeRef : Option (Str × List Int))
    (explicitText : Option Str) : PResult PolicyInformation :=
  (emitExplicitText explicitText).map fun etv =>
    { policyIdentifier := oid,
      policyQualifiers := some
        [{ id := oidQualifierIdUnotice,
           qualifier := .un
             (noticeRef.map fun p => (DisplayText.utf8 p.1, p.2.map RasnInteger.primitive))
             (etv.map DisplayText.utf8) }] }

/-- Model of `as_policy_information`. -/
def asPolicyInformation : CertificatePolicy → PResult PolicyInformation
  | .oidPolicy oid => .ok (asOidPolicy oid)
  | .cspPolicy oid uri => asCspPolicy oid uri
  | .userNoticePolicy oid nr et => asUserNoticePolicy oid nr et

/-- Model of `to_rasn_type` on a policy list. -/
def toRasnPolicies (l : List CertificatePolicy) : PResult (List PolicyInformation) :=
  pmapList asPolicyInformation l

/-- Model of `from_csp_policy`: decode the qualifier as `DisplayText`
(`unwrap` panics on any other blob) and render it to a string. -/
def fromCspPolicy (oid : Oid) (q : QualVal) : PResult CertificatePolicy :=
  match decodeDisplayText q with
  | none => .panic
  | some d => (displayTextAsString d).map (CertificatePolicy.cspPolicy oid)

/-- Model of `from_user_notice_policy`. -/
def fromUserNoticePolicy (oid : Oid) (q : QualVal) : PResult CertificatePolicy :=
  match decodeUserNotice q with
  | none => .panic
  | some (nr, et) =>
      (match et with
       | none => PResult.ok none
       | some d => (displayTextAsString d).map some).bind fun etStr =>
      (match nr with
       | none => PResult.ok none
       | some (org, nums) =>
           (displayTextAsString org).bind fun orgStr =>
           (pmapList integerAsIsizeE nums).map fun numVals => some (orgStr, numVals)).map
        fun nrVal => CertificatePolicy.userNoticePolicy oid nrVal etStr

/-- Model of the qualifier loop body of `from_policy_information`: the
first qualifier decides the result, an unknown qualifier OID hits the
`todo!` panic; with no qualifiers at all the policy is OID-only. -/
def fromPolicyQualifiers (oid : Oid) : List PolicyQualifierInfo → PResult CertificatePolicy
  | [] => .ok (.oidPolicy oid)
  | q :: _ =>
      if q.id = oidQualifierIdCps then fromCspPolicy oid q.qualifier
      else if q.id = oidQualifierIdUnotice then fromUserNoticePolicy oid q.qualifier
      else .panic

/-- Model of `from_policy_information`. -/
def fromPolicyInformationE (pi1 : PolicyInformation) : PResult CertificatePolicy :=
  match pi1.policyQualifiers with
  | none => .ok (.oidPolicy pi1.policyIdentifier)
  | some qs => fromPolicyQualifiers pi1.policyIdentifier qs

/-- Model of `from_rasn_type` on a policy list. -/
def fromRasnPolicies (l : List PolicyInformation) : PResult (List CertificatePolicy) :=
  pmapList fromPolicyInformationE l

end CertificatePolicy



/-!
## BasicConstraints (src/cert/extensions/basic_constraints.rs)
-/

/-- Typed BasicConstraints model. -/
structure BasicConstraints where
  ca : Bool
  pathLen : Option Nat
deriving DecidableEq, Repr

/-- Model of rasn-pkix `BasicConstraints`. -/
structure RasnBasicConstraints where
  ca : Bool
  pathLenConstraint : Option RasnInteger
deriving DecidableEq, Repr

namespace BasicConstraints

/-- OID of the basicConstraints extension. -/
def oid : Oid := [2, 5, 29, 19]

/-- Model of `BasicConstraints::new_leaf`. -/
def newLeaf : BasicConstraints := { ca := false, pathLen := none }

/-- Model of `BasicConstraints::new_ca`. -/
def newCa (pathLen : Option Nat) : BasicConstraints := { ca := true, pathLen := pathLen }

/-- Model of `is_leaf`. -/
def isLeaf (b : BasicConstraints) : Bool := !b.ca

/-- Model of `is_ca`. -/
def isCa (b : BasicConstraints) : Bool := b.ca

/-- Model of the `path_len` accessor: `None` unless the entry is a CA. -/
def pathLenAcc (b : BasicConstraints) : Option Nat :=
  if b.ca then b.pathLen else none

/-- Model of `to_rasn_type` (usize goes to the primitive integer). -/
def toRasn (b : BasicConstraints) : RasnBasicConstraints :=
  { ca := b.ca, pathLenConstraint := b.pathLen.map (fun n => .primitive n) }

/-- Model of `from_rasn_type` (through `integer_as_usize`). -/
def fromRasnE (r : RasnBasicConstraints) : PResult BasicConstraints :=
  match r.pathLenConstraint with
  | none => .ok { ca := r.ca, pathLen := none }
  | some i => (integerAsUsizeE i).map (fun n => { ca := r.ca, pathLen := some n })

end BasicConstraints

/-!
## KeyUsage (src/cert/extensions/key_usage.rs)
-/

/-- The nine key-usage flags. -/
inductive KeyUsage where
  | digitalSignature
  | nonRepudiation
  | keyEncipherment
  | dataEncipherment
  | keyAgreement
  | keyCertSign
  | crlSign
  | encipherOnly
  | decipherOnly
deriving DecidableEq, Repr

namespace KeyUsage

/-- OID of the keyUsage extension. -/
def oid : Oid := [2, 5, 29, 15]

/-- The MSB-first flag order (`MSB_ORDERED_KUS`). -/
def msbOrderedKus : List KeyUsage :=
  [.digitalSignature, .nonRepudiation, .keyEncipherment, .dataEncipherment,
   .keyAgreement, .keyCertSign, .crlSign, .encipherOnly, .decipherOnly]

/-- Pop trailing false bits, as the `while bv.last() .. bv.pop()` loop. -/
def trimTrailingFalse (l : List Bool) : List Bool :=
  (l.reverse.dropWhile (fun b => b == false)).reverse

/-- Model of `KeyUsage::to_rasn_type`: one bit per ordered flag (set when
the slice contains the flag), then trailing zero bits trimmed. -/
def toRasn (keyUsages : List KeyUsage) : List Bool :=
  trimTrailingFalse (msbOrderedKus.map (fun ku => keyUsages.contains ku))

end KeyUsage

/-!
## ExtendedKeyUsage (src/cert/extensions/extended_key_usage.rs)
-/

/-- The closed EKU registry plus the custom escape hatch. -/
inductive ExtendedKeyUsage where
  | anyExtendedKeyUsage
  | pkinitClientAuth
  | pkinitKeyDistributionCenter
  | pkixServerAuth
  | pkixClientAuth
  | pkixCodeSigning
  | pkixEmailProtection
  | pkixTimeStamping
  | pkixOcspSigning
  | pkixEapOverPpp
  | pkixEapOverLan
  | pkixScvpServer
  | pkixScvpClient
  | pkixIpsecIke
  | pkixSipDomain
  | pkixSecureShellClient
  | pkixSecureShellServer
  | pkixDocumentSigning
  | etsiTlsSigning
  | icaoCscaMasterListSigningKey
  | icaoDeviationListSigningKey
  | nistPivCardAuth
  | msIndividualCodeSigning
  | msCommercialCodeSigning
  | msEncryptedFileSystem
  | msEncryptedFileSystemRecovery
  | msDocumentSigning
  | msSmartCardLogon
  | msKeyExchangeCertificate
  | intelAmt
  | adobeAuthenticDocumentsTrust
  | custom (oid : Oid)
deriving DecidableEq, Repr

namespace ExtendedKeyUsage

/-- OID of the extKeyUsage extension. -/
def extOid : Oid := [2, 5, 29, 37]

/-- The registry entries inserted into the process-wide lookup. -/
def ekuTable : List (ExtendedKeyUsage × Oid) :=
  [(.anyExtendedKeyUsage, [2, 5, 29, 37, 0]),
   (.pkinitClientAuth, [1, 3, 6, 1, 5, 2, 3, 4]),
   (.pkinitKeyDistributionCenter, [1, 3, 6, 1, 5, 2, 3, 5]),
   (.pkixServerAuth, [1, 3, 6, 1, 5, 5, 7, 3, 1]),
   (.pkixClientAuth, [1, 3, 6, 1, 5, 5, 7, 3, 2]),
   (.pkixCodeSigning, [1, 3, 6, 1, 5, 5, 7, 3, 3]),
   (.pkixEmailProtection, [1, 3, 6, 1, 5, 5, 7, 3, 4]),
   (.pkixTimeStamping, [1, 3, 6, 1, 5, 5, 7, 3, 8]),
   (.pkixOcspSigning, [1, 3, 6, 1, 5, 5, 7, 3, 9]),
   (.pkixEapOverPpp, [1, 3, 6, 1, 5, 5, 7, 3, 13]),
   (.pkixEapOverLan, [1, 3, 6, 1, 5, 5, 7, 3, 14]),
   (.pkixScvpServer, [1, 3, 6, 1, 5, 5, 7, 3, 15]),
   (.pkixScvpClient, [1, 3, 6, 1, 5, 5, 7, 3, 16]),
   (.pkixIpsecIke, [1, 3, 6, 1, 5, 5, 7, 3, 17]),
   (.pkixSipDomain, [1, 3, 6, 1, 5, 5, 7, 3, 20]),
   (.pkixSecureShellClient, [1, 3, 6, 1, 5, 5, 7, 3, 21]),
   (.pkixSecureShellServer, [1, 3, 6, 1, 5, 5, 7, 3, 22]),
   (.pkixDocumentSigning, [1, 3, 6, 1, 5, 5, 7, 3, 36]),
   (.etsiTlsSigning, [0, 4, 0, 2231, 3, 0]),
   (.icaoCscaMasterListSigningKey, [2, 23, 136, 1, 1, 3]),
   (.icaoDeviationListSigningKey, [2, 23, 136, 1, 1, 8]),
   (.nistPivCardAuth, [2, 16, 840, 1, 101, 3, 6, 8]),
   (.msIndividualCodeSigning, [1, 3, 6, 1, 4, 1, 311, 2, 1, 21]),
   (.msCommercialCodeSigning, [1, 3, 6, 1, 4, 1, 311, 2, 1, 22]),
   (.msEncryptedFileSystem, [1, 3, 6, 1, 4, 1, 311, 10, 3, 4]),
   (.msEncryptedFileSystemRecovery, [1, 3, 6, 1, 4, 1, 311, 10, 3, 4, 1]),
   (.msDocumentSigning, [1, 3, 6, 1, 4, 1, 311, 10, 3, 12]),
   (.msSmartCardLogon, [1, 3, 6, 1, 4, 1, 311, 20, 2, 2]),
   (.msKeyExchangeCertificate, [1, 3, 6, 1, 4, 1, 311, 21, 5]),
   (.intelAmt, [2, 16, 840, 1, 113741, 1, 2, 3]),
   (.adobeAuthenticDocumentsTrust, [1, 2, 840, 113583, 1, 1, 5])]

/-- True on the custom escape-hatch variant. -/
def isCustom : ExtendedKeyUsage → Bool
  | .custom _ => true
  | _ => false

/-- Model of `ExtendedKeyUsage::value`: look the variant up in the
registry; the custom variant is not in the registry, so the `unwrap`
panics. -/
def valueE (e : ExtendedKeyUsage) : PResult Oid :=
  match ekuTable.lookup e with
  | some o => .ok o
  | none => .panic

/-- Model of `ExtendedKeyUsage::from_oid`: reverse registry lookup with
the custom variant as fallback. -/
def fromOid (o : Oid) : ExtendedKeyUsage :=
  match (ekuTable.map (fun p => (p.2, p.1))).lookup o with
  | some e => e
  | none => .custom o

/-- Model of `ExtendedKeyUsage::to_rasn_type` on a slice. -/
def toRasnE (ekus : List ExtendedKeyUsage) : PResult (List Oid) :=
  pmapList valueE ekus

end ExtendedKeyUsage

/-!
## Key identifiers (src/cert/extensions/key_identifier.rs)

Only the `key_identifier` field of an AuthorityKeyIdentifier is ever
written (the builder sets the other two fields to `None`) or read (the
parser only returns `key_identifier`), so the model carries that field.
-/

/-- Model of rasn-pkix `AuthorityKeyIdentifier` (key identifier only). -/
structure RasnAuthorityKeyIdentifier where
  keyIdentifier : Option Bytes
deriving DecidableEq, Repr

/-- OID of the authorityKeyIdentifier extension. -/
def akiOid : Oid := [2, 5, 29, 35]

/-- OID of the subjectKeyIdentifier extension. -/
def skiOid : Oid := [2, 5, 29, 14]

/-- Model of `AuthorityKeyIdentifier::from_issuers_subject_key_identifier`. -/
def akiFromIssuerSki (issuerSki : Bytes) : RasnAuthorityKeyIdentifier :=
  { keyIdentifier := some issuerSki }

/-!
## General names and punycode (src/cert/types/general_name.rs,
src/encdec/puny_code.rs, src/encdec/oid.rs)

External text collaborators (std `to_lowercase`, the idna punycode
codecs, std IP parsing and formatting, and rasn `ObjectIdentifier::new`
validation) are parameters, bundled in `ExtWorld`.
-/

/-- External collaborator functions used by the general-name paths. -/
structure ExtWorld where
  lower : Str → Str
  idnaEncode : Str → Option Str
  idnaDecode : Str → Option Str
  ipToString : List Nat → Str
  parseIp : Str → Option (List Nat)
  oidNew : Oid → Option Oid

/-- Split on a separator character, Rust `str::split` semantics. -/
def splitOnCharAux (sep : Char) : Str → Str → List Str
  | [], acc => [acc.reverse]
  | c :: t, acc =>
      if c = sep then acc.reverse :: splitOnCharAux sep t []
      else splitOnCharAux sep t (c :: acc)

/-- Split a string on a separator character. -/
def splitOnChar (sep : Char) (s : Str) : List Str := splitOnCharAux sep s []

/-- Join strings with a separator character (Rust `join`). -/
def joinWithChar (sep : Char) : List Str → Str
  | [] => []
  | [x] => x
  | x :: t => x ++ sep :: joinWithChar sep t

/-- Rust `str::is_ascii`. -/
def isAsciiStr (s : Str) : Bool := s.all (fun c => c.toNat ≤ 127)

/-- Whether a label starts with the ACE prefix `xn--`. -/
def startsWithXn (s : Str) : Bool := s.take 4 = ['x', 'n', '-', '-']

/-- Model of `puny_code::encode`: lowercase, then per dot-separated part
keep ASCII parts and ACE-encode the rest through
`idna::punycode::encode_str(..).unwrap()` (panic on `None`). -/
def punyEncodeE (w : ExtWorld) (s : Str) : PResult Str :=
  (pmapList
    (fun part =>
      if isAsciiStr part then .ok part
      else
        match w.idnaEncode part with
        | some e => .ok (['x', 'n', '-', '-'] ++ e)
        | none => .panic)
    (splitOnChar '.' (w.lower s))).map (joinWithChar '.')

/-- Model of `puny_code::decode`: lowercase, then per dot-separated part
decode `xn--` labels through
`idna::punycode::decode_to_string(..).unwrap()` (panic on `None`). -/
def punyDecodeE (w : ExtWorld) (s : Str) : PResult Str :=
  (pmapList
    (fun part =>
      if startsWithXn part then
        match w.idnaDecode (part.drop 4) with
        | some d => .ok d
        | none => .panic
      else .ok part)
    (splitOnChar '.' (w.lower s))).map (joinWithChar '.')

/-- Model of `oid::as_string`: decimal arcs joined with dots. -/
def asStringOid (o : Oid) : Str := joinWithChar '.' (o.map (fun n => Nat.toDigits 10 n))

/-- Rust `str::parse::<u32>`. -/
def parseU32Str (s : Str) : Option Nat :=
  let t := match s with
    | '+' :: r => r
    | _ => s
  if t ≠ [] ∧ t.all Char.isDigit then
    let v := t.foldl (fun a c => a * 10 + (c.toNat - 48)) 0
    if v < 2 ^ 32 then some v else none
  else none

/-- Model of `oid::from_string`: each dotted part parsed as u32 with an
`unwrap` on the parse result (panic on malformed parts). -/
def fromStringOidE (s : Str) : PResult Oid :=
  pmapList
    (fun part =>
      match parseU32Str part with
      | some v => .ok v
      | none => .panic)
    (splitOnChar '.' s)

/-- The well-known GeneralName kinds. -/
inductive WellKnownGeneralName where
  | rfc822Name
  | dnsName
  | uri
  | ipAddress
  | registeredId
deriving DecidableEq, Repr

/-- Model of rasn-pkix `GeneralName`. Variants that the code never reads
beyond their tag carry no payload. -/
inductive RasnGeneralName where
  | otherName (typeId : Oid) (value : List Nat)
  | rfc822Name (s : Str)
  | dnsName (s : Str)
  | x400Address
  | directoryName
  | ediPartyName
  | uri (s : Str)
  | ipAddress (b : Bytes)
  | registeredId (o : Oid)
deriving DecidableEq, Repr

namespace WellKnownGeneralName

/-- Model of `to_rfc822_name`: split at the `@` (panic unless exactly
one), punycode-decode the domain part. -/
def toRfc822Name (w : ExtWorld) (s : Str) : PResult (WellKnownGeneralName × Str) :=
  let parts := splitOnChar '@' s
  if parts.length ≠ 2 then .panic
  else
    (punyDecodeE w (parts.getD 1 [])).map
      (fun d => (.rfc822Name, parts.getD 0 [] ++ '@' :: d))

/-- Model of `to_dns_name`. -/
def toDnsName (w : ExtWorld) (s : Str) : PResult (WellKnownGeneralName × Str) :=
  (punyDecodeE w s).map (fun d => (.dnsName, d))

/-- Model of `to_ip_address`: only 4- and 16-octet forms are accepted,
anything else hits the `panic!`. -/
def toIpAddress (w : ExtWorld) (b : Bytes) : PResult (WellKnownGeneralName × Str) :=
  if b.length = 4 ∨ b.length = 16 then .ok (.ipAddress, w.ipToString b) else .panic

/-- Model of `WellKnownGeneralName::from_rasn_type`: unknown OtherName,
X400 and EDIPartyName forms yield `None`; DirectoryName hits a `todo!`
panic. -/
def fromRasnE (w : ExtWorld) : RasnGeneralName → PResult (Option (WellKnownGeneralName × Str))
  | .otherName _ _ => .ok none
  | .rfc822Name s => (toRfc822Name w s).map some
  | .dnsName s => (toDnsName w s).map some
  | .x400Address => .ok none
  | .directoryName => .panic
  | .ediPartyName => .ok none
  | .uri s => .ok (some (.uri, s))
  | .ipAddress b => (toIpAddress w b).map some
  | .registeredId o => .ok (some (.registeredId, asStringOid o))

/-- Model of `as_rfc822_name`: split at the `@` (panic unless exactly
one), punycode-encode the domain, then force the result into IA5. -/
def asRfc822Name (w : ExtWorld) (v : Str) : PResult RasnGeneralName :=
  let parts := splitOnChar '@' v
  if parts.length ≠ 2 then .panic
  else
    (punyEncodeE w (parts.getD 1 [])).bind fun dp =>
      match ia5TryFrom (parts.getD 0 [] ++ '@' :: dp) with
      | some s => .ok (.rfc822Name s)
      | none => .panic

/-- Model of `WellKnownGeneralName::to_rasn_type`. -/
def toRasnE (w : ExtWorld) : WellKnownGeneralName → Str → PResult RasnGeneralName
  | .rfc822Name, v => asRfc822Name w v
  | .dnsName, v =>
      (punyEncodeE w v).bind fun p =>
        match ia5TryFrom p with
        | some s => .ok (.dnsName s)
        | none => .panic
  | .uri, v =>
      match ia5TryFrom v with
      | some s => .ok (.uri s)
      | none => .panic
  | .ipAddress, v =>
      match w.parseIp v with
      | some octets => .ok (.ipAddress octets)
      | none => .panic
  | .registeredId, v =>
      (fromStringOidE v).bind fun o =>
        match w.oidNew o with
        | some o2 => .ok (.registeredId o2)
        | none => .panic

end WellKnownGeneralName

/-- Model of `AlternativeName::to_rasn_type`. -/
def alternativeNameToRasnE (w : ExtWorld) (ans : List (WellKnownGeneralName × Str)) :
    PResult (List RasnGeneralName) :=
  pmapList (fun p => WellKnownGeneralName.toRasnE w p.1 p.2) ans

/-- Panic-propagating filterMap used by `AlternativeName::from_rasn_type`
(`filter_map` over a fallible per-element conversion). -/
def pfilterMapList {α β : Type} (f : α → PResult (Option β)) : List α → PResult (List β)
  | [] => .ok []
  | a :: t =>
      (f a).bind fun ob =>
        (pfilterMapList f t).map fun r =>
          match ob with
          | some b => b :: r
          | none => r

/-- Model of `AlternativeName::from_rasn_type`. -/
def alternativeNameFromRasnE (w : ExtWorld) (gns : List RasnGeneralName) :
    PResult (List (WellKnownGeneralName × Str)) :=
  pfilterMapList (WellKnownGeneralName.fromRasnE w) gns

/-- OID of the subjectAltName extension. -/
def sanOid : Oid := [2, 5, 29, 17]

/-- OID of the issuerAltName extension. -/
def ianOid : Oid := [2, 5, 29, 18]

/-!
## Authority Information Access
(src/cert/extensions/authority_information_access.rs)
-/

/-- Model of rasn-pkix `AccessDescription`. -/
structure AccessDescription where
  accessMethod : Oid
  accessLocation : RasnGeneralName
deriving DecidableEq, Repr

/-- Typed AIA description model. -/
inductive AuthorityInfoAccessDescription where
  | ocsp (uri : Str)
  | caIssuers (accessLocation : WellKnownGeneralName × Str)
  | other (oid : Oid) (accessLocation : WellKnownGeneralName × Str)
deriving DecidableEq, Repr

namespace AuthorityInfoAccessDescription

/-- OID of the authorityInfoAccess extension. -/
def extOid : Oid := [1, 3, 6, 1, 5, 5, 7, 1, 1]

/-- OID of the OCSP access method. -/
def oidAccessMethodOcsp : Oid := [1, 3, 6, 1, 5, 5, 7, 48, 1]

/-- OID of the caIssuers access method. -/
def oidAccessMethodCaIssuer : Oid := [1, 3, 6, 1, 5, 5, 7, 48, 2]

/-- Model of `access_method_oid`. -/
def accessMethodOid : AuthorityInfoAccessDescription → Oid
  | .ocsp _ => oidAccessMethodOcsp
  | .caIssuers _ => oidAccessMethodCaIssuer
  | .other oid _ => oid

/-- Model of `as_rasn_type` on one description (the OCSP location is
forced to the URI general-name form). -/
def asRasnE (w : ExtWorld) : AuthorityInfoAccessDescription → PResult AccessDescription
  | .ocsp uri =>
      (WellKnownGeneralName.toRasnE w .uri uri).map
        (fun gn => { accessMethod := oidAccessMethodOcsp, accessLocation := gn })
  | .caIssuers loc =>
      (WellKnownGeneralName.toRasnE w loc.1 loc.2).map
        (fun gn => { accessMethod := oidAccessMethodCaIssuer, accessLocation := gn })
  | .other oid loc =>
      (WellKnownGeneralName.toRasnE w loc.1 loc.2).map
        (fun gn => { accessMethod := oid, accessLocation := gn })

/-- Model of `to_rasn_type` on a slice. -/
def toRasnListE (w : ExtWorld) (l : List AuthorityInfoAccessDescription) :
    PResult (List AccessDescription) :=
  pmapList (asRasnE w) l

/-- Model of `from_accesss_description`: the general-name conversion is
unwrapped (panic when it yields `None` or itself panics), then the access
method OID selects the variant. -/
def fromAccessDescriptionE (w : ExtWorld) (ad : AccessDescription) :
    PResult AuthorityInfoAccessDescription :=
  (WellKnownGeneralName.fromRasnE w ad.accessLocation).bind fun ol =>
    match ol with
    | none => .panic
    | some loc =>
        if ad.accessMethod = oidAccessMethodOcsp then .ok (.ocsp loc.2)
        else if ad.accessMethod = oidAccessMethodCaIssuer then .ok (.caIssuers loc)
        else .ok (.other ad.accessMethod loc)

/-- Model of `from_rasn_type` on a list. -/
def fromRasnListE (w : ExtWorld) (l : List AccessDescription) :
    PResult (List AuthorityInfoAccessDescription) :=
  pmapList (fromAccessDescriptionE w) l

end AuthorityInfoAccessDescription

/-!
## CRL distribution points (src/cert/extensions/crl_distribution_points.rs)
-/

/-- Model of rasn-pkix `DistributionPointName`. -/
inductive DistributionPointName where
  | fullName (gns : List RasnGeneralName)
  | nameRelativeToCrlIssuer
deriving DecidableEq, Repr

/-- Model of rasn-pkix `DistributionPoint` (reasons and CRL issuer are
only tested for presence by the code, so presence flags suffice). -/
structure DistributionPoint where
  distributionPoint : Option DistributionPointName
  reasonsPresent : Bool
  crlIssuerPresent : Bool
deriving DecidableEq, Repr

/-- OID of the cRLDistributionPoints extension. -/
def cdpOid : Oid := [2, 5, 29, 31]

/-- Model of `CrlDistributionPoint::to_rasn_type`: one full-name URI
point, no reasons, no CRL issuer; the URI is forced into IA5 with an
`unwrap`. -/
def cdpToRasnE (cdpUri : Str) : PResult (List DistributionPoint) :=
  match ia5TryFrom cdpUri with
  | some s =>
      .ok [{ distributionPoint := some (.fullName [.uri s]),
             reasonsPresent := false, crlIssuerPresent := false }]
  | none => .panic

/-!
## Extension values and the Extensions builder (src/cert/extensions.rs)

The `extn_value` octet string of an extension is carried as the abstract
DER value `ExtnVal`: the builder stores the encoding of the rasn value it
just produced, and the parser readers decode it, succeeding exactly on
the matching shape.
-/

/-- Abstract content of an extension value octet string. -/
inductive ExtnVal where
  | bc (v : RasnBasicConstraints)
  | ku (bits : List Bool)
  | ekus (oids : List Oid)
  | aki (v : RasnAuthorityKeyIdentifier)
  | ski (kid : Bytes)
  | policies (l : List PolicyInformation)
  | aia (l : List AccessDescription)
  | gns (l : List RasnGeneralName)
  | cdps (l : List DistributionPoint)
  | raw (bytes : List Nat)
deriving DecidableEq, Repr

/-- Model of rasn-pkix `Extension`. -/
structure RasnExtension where
  extnId : Oid
  critical : Bool
  extnValue : ExtnVal
deriving DecidableEq, Repr

/-- Model of `Extensions::add_extension`: DER-encode the value and push
the triple (the abstract value stands for its encoding). -/
def addExtension (exts : List RasnExtension) (oid : Oid) (critical : Bool) (v : ExtnVal) :
    List RasnExtension :=
  exts ++ [{ extnId := oid, critical := critical, extnValue := v }]

/-- Model of `add_basic_constraints`: critical exactly when `is_ca()`. -/
def addBasicConstraints (exts : List RasnExtension) (b : BasicConstraints) :
    List RasnExtension :=
  addExtension exts BasicConstraints.oid b.isCa (.bc b.toRasn)

/-- Model of `add_key_usage`: omitted when the slice is empty, otherwise
always critical. -/
def addKeyUsage (exts : List RasnExtension) (kus : List KeyUsage) : List RasnExtension :=
  if kus.isEmpty then exts
  else addExtension exts KeyUsage.oid true (.ku (KeyUsage.toRasn kus))

/-- Model of `add_authority_information_access`: omitted when empty,
never critical. -/
def addAuthorityInformationAccess (w : ExtWorld) (exts : List RasnExtension)
    (ads : List AuthorityInfoAccessDescription) : PResult (List RasnExtension) :=
  if ads.isEmpty then .ok exts
  else
    (AuthorityInfoAccessDescription.toRasnListE w ads).map
      (fun l => addExtension exts AuthorityInfoAccessDescription.extOid false (.aia l))

/-- Model of `add_certificate_policies`: omitted when empty, never
critical. -/
def addCertificatePolicies (exts : List RasnExtension) (ps : List CertificatePolicy) :
    PResult (List RasnExtension) :=
  if ps.isEmpty then .ok exts
  else
    (CertificatePolicy.toRasnPolicies ps).map
      (fun l => addExtension exts CertificatePolicy.extOid false (.policies l))

/-- Model of `add_crl_distribution_points`: never critical. -/
def addCrlDistributionPoints (exts : List RasnExtension) (uri : Str) :
    PResult (List RasnExtension) :=
  (cdpToRasnE uri).map (fun l => addExtension exts cdpOid false (.cdps l))

/-- Model of `add_authority_key_identifier`: never critical. -/
def addAuthorityKeyIdentifier (exts : List RasnExtension) (a : RasnAuthorityKeyIdentifier) :
    List RasnExtension :=
  addExtension exts akiOid false (.aki a)

/-- Model of `add_subject_key_identifier`: never critical. -/
def addSubjectKeyIdentifier (exts : List RasnExtension) (kid : Bytes) : List RasnExtension :=
  addExtension exts skiOid false (.ski kid)

/-- Model of `add_extended_key_usage`: omitted when empty, never
critical. -/
def addExtendedKeyUsage (exts : List RasnExtension) (ekus : List ExtendedKeyUsage) :
    PResult (List RasnExtension) :=
  if ekus.isEmpty then .ok exts
  else
    (ExtendedKeyUsage.toRasnE ekus).map
      (fun oids => addExtension exts ExtendedKeyUsage.extOid false (.ekus oids))

/-- Model of `add_subject_alternative_name`: omitted when the list is
empty; critical exactly when the caller says the subject DN is empty. -/
def addSubjectAlternativeName (w : ExtWorld) (exts : List RasnExtension)
    (sans : List (WellKnownGeneralName × Str)) (subjectDnEmpty : Bool) :
    PResult (List RasnExtension) :=
  if sans.isEmpty then .ok exts
  else
    (alternativeNameToRasnE w sans).map
      (fun gns => addExtension exts sanOid subjectDnEmpty (.gns gns))

/-- Model of `add_issuer_alternative_name`: omitted when empty, never
critical. -/
def addIssuerAlternativeName (w : ExtWorld) (exts : List RasnExtension)
    (ians : List (WellKnownGeneralName × Str)) : PResult (List RasnExtension) :=
  if ians.isEmpty then .ok exts
  else
    (alternativeNameToRasnE w ians).map
      (fun gns => addExtension exts ianOid false (.gns gns))

/-- One call of the public builder API, with its arguments. -/
inductive AddOp where
  | basicConstraints (b : BasicConstraints)
  | keyUsage (kus : List KeyUsage)
  | authorityInformationAccess (ads : List AuthorityInfoAccessDescription)
  | certificatePolicies (ps : List CertificatePolicy)
  | crlDistributionPoints (uri : Str)
  | authorityKeyIdentifier (a : RasnAuthorityKeyIdentifier)
  | subjectKeyIdentifier (kid : Bytes)
  | extendedKeyUsage (ekus : List ExtendedKeyUsage)
  | subjectAlternativeName (sans : List (WellKnownGeneralName × Str)) (subjectDnEmpty : Bool)
  | issuerAlternativeName (ians : List (WellKnownGeneralName × Str))
deriving Repr

/-- The extension OID a builder call would add. -/
def AddOp.opOid : AddOp → Oid
  | .basicConstraints _ => BasicConstraints.oid
  | .keyUsage _ => KeyUsage.oid
  | .authorityInformationAccess _ => AuthorityInfoAccessDescription.extOid
  | .certificatePolicies _ => CertificatePolicy.extOid
  | .crlDistributionPoints _ => cdpOid
  | .authorityKeyIdentifier _ => akiOid
  | .subjectKeyIdentifier _ => skiOid
  | .extendedKeyUsage _ => ExtendedKeyUsage.extOid
  | .subjectAlternativeName _ _ => sanOid
  | .issuerAlternativeName _ => ianOid

/-- Run one builder call on the current extension list. -/
def runAddOp (w : ExtWorld) (exts : List RasnExtension) : AddOp → PResult (List RasnExtension)
  | .basicConstraints b => .ok (addBasicConstraints exts b)
  | .keyUsage kus => .ok (addKeyUsage exts kus)
  | .authorityInformationAccess ads => addAuthorityInformationAccess w exts ads
  | .certificatePolicies ps => addCertificatePolicies exts ps
  | .crlDistributionPoints uri => addCrlDistributionPoints exts uri
  | .authorityKeyIdentifier a => .ok (addAuthorityKeyIdentifier exts a)
  | .subjectKeyIdentifier kid => .ok (addSubjectKeyIdentifier exts kid)
  | .extendedKeyUsage ekus => addExtendedKeyUsage exts ekus
  | .subjectAlternativeName sans e => addSubjectAlternativeName w exts sans e
  | .issuerAlternativeName ians => addIssuerAlternativeName w exts ians

/-- Run a sequence of builder calls starting from the given list. -/
def runAddOps (w : ExtWorld) (exts : List RasnExtension) : List AddOp → PResult (List RasnExtension)
  | [] => .ok exts
  | op :: t => (runAddOp w exts op).bind fun e2 => runAddOps w e2 t

/-!
## Validity (src/cert/types/validity.rs) and the parsed certificate
(src/cert/parse.rs)
-/

/-- Model of rasn-pkix `Time`: UTCTime or GeneralizedTime, carrying the
Unix timestamp (seconds, possibly negative for pre-1970 dates). -/
inductive RasnTime where
  | utc (timestamp : Int)
  | general (timestamp : Int)
deriving DecidableEq, Repr

/-- Model of rasn-pkix `Validity`. -/
structure RasnValidity where
  notBefore : RasnTime
  notAfter : RasnTime
deriving DecidableEq, Repr

/-- Typed validity: two u64 epoch-second values. -/
structure Validity where
  notBeforeEpochSeconds : Nat
  notAfterEpochSeconds : Nat
deriving DecidableEq, Repr

/-- Model of `Validity::is_valid_at` (closed interval). -/
def Validity.isValidAt (v : Validity) (pointInTimeEpochSeconds : Nat) : Bool :=
  if pointInTimeEpochSeconds > v.notAfterEpochSeconds then false
  else if pointInTimeEpochSeconds < v.notBeforeEpochSeconds then false
  else true

/-- Model of `from_rasn_epoch_seconds`: `u64::try_from(..).unwrap()`
panics on a negative timestamp. -/
def fromRasnEpochSecondsE : RasnTime → PResult Nat
  | .utc ts => if ts < 0 then .panic else .ok ts.toNat
  | .general ts => if ts < 0 then .panic else .ok ts.toNat

/-- Model of `Validity::from_rasn_type`. -/
def validityFromRasnE (rv : RasnValidity) : PResult Validity :=
  (fromRasnEpochSecondsE rv.notBefore).bind fun nb =>
    (fromRasnEpochSecondsE rv.notAfter).map fun na =>
      { notBeforeEpochSeconds := nb, notAfterEpochSeconds := na }

/-- Model of the decoded rasn-pkix `Certificate` as the parser sees it.
Structured fields that the code only re-encodes and compares (subject,
issuer, SPKI, TBS) are carried as their DER encodings, which is faithful
because DER encoding of a decoded value is a function. -/
structure RasnCert where
  serialNumber : RasnInteger
  subjectDer : Bytes
  issuerDer : Bytes
  validity : RasnValidity
  spkiDer : Bytes
  tbsDer : Bytes
  sigAlgOid : Oid
  sigValue : Bytes
  extensions : Option (List RasnExtension)
deriving DecidableEq, Repr

/-- Model of `CertificateParser`: the decoded certificate plus the
fingerprint of the input bytes. -/
structure CertificateParser where
  certificate : RasnCert
  fingerprint : Str
deriving DecidableEq, Repr

/-- External collaborators of parsing and validation: the ASN.1 codec
(decoding of certificate DER), the SHA3-512 hex fingerprint, and the
signature-engine registry (engines verify against the issuer SPKI). -/
structure PkiWorld where
  decodeCert : Bytes → Option RasnCert
  fpData : Bytes → Str
  seByOid : Str → Option (Bytes → Bytes → Bytes → Bool)

/-- Model of `CertificateParser::from_bytes`: a codec rejection becomes a
value-returned `CertificateDecodingError`. -/
def CertificateParser.fromBytes (pw : PkiWorld) (b : Bytes) : Except Unit CertificateParser :=
  match pw.decodeCert b with
  | some c => .ok { certificate := c, fingerprint := pw.fpData b }
  | none => .error ()

/-- Model of `get_validity` composed with `from_rasn_type` (the reader
calls the conversion, which can panic on pre-1970 dates). -/
def getValidityE (c : RasnCert) : PResult Validity :=
  validityFromRasnE c.validity

/-- Model of `get_serial_number` (through `integer_as_bytes_be`). -/
def getSerialNumber (c : RasnCert) : List Nat :=
  integerAsBytesBE c.serialNumber

/-- Model of `get_encoded_signature`: the dotted signature OID string and
the raw signature bytes. -/
def getEncodedSignature (c : RasnCert) : Str × Bytes :=
  (asStringOid c.sigAlgOid, c.sigValue)

/-- Model of `get_critical_extension_oids`. -/
def getCriticalExtensionOids (c : RasnCert) : List Oid :=
  ((c.extensions.getD []).filter (fun e => e.critical)).map (fun e => e.extnId)

/-- Model of `extensions_by_oid`. -/
def extensionsByOid (c : RasnCert) (oid : Oid) : List RasnExtension :=
  (c.extensions.getD []).filter (fun e => e.extnId = oid)

/-- Model of `get_basic_constraints`: decode the first matching extension
value (`unwrap` panics on a non-BasicConstraints blob), then convert. -/
def getBasicConstraintsE (c : RasnCert) : PResult (Option BasicConstraints) :=
  match (extensionsByOid c BasicConstraints.oid).head? with
  | none => .ok none
  | some e =>
      match e.extnValue with
      | .bc r => (BasicConstraints.fromRasnE r).map some
      | _ => .panic

/-- The bit-to-array loop of `get_key_usage`: `ret[i] = b` over the
enumerated decoded bits, starting from `[false; 9]`; a bit index beyond 9
panics on the array indexing. -/
def kuDecodeArr (bits : List Bool) : PResult (List Bool) :=
  if bits.length ≤ 9 then .ok ((List.range 9).map (fun i => bits.getD i false))
  else .panic

/-- Model of `get_key_usage`: decode the first matching extension value,
then write each bit into a fixed 9-slot array. -/
def getKeyUsageE (c : RasnCert) : PResult (Option (List Bool)) :=
  match (extensionsByOid c KeyUsage.oid).head? with
  | none => .ok none
  | some e =>
      match e.extnValue with
      | .ku bits => (kuDecodeArr bits).map some
      | _ => .panic

/-- Model of `get_extended_key_usage`. -/
def getExtendedKeyUsageE (c : RasnCert) : PResult (List ExtendedKeyUsage) :=
  match (extensionsByOid c ExtendedKeyUsage.extOid).head? with
  | none => .ok []
  | some e =>
      match e.extnValue with
      | .ekus oids => .ok (oids.map ExtendedKeyUsage.fromOid)
      | _ => .panic

/-- Model of `get_authority_key_identifier_kid`. -/
def getAuthorityKeyIdentifierKidE (c : RasnCert) : PResult (Option Bytes) :=
  match (extensionsByOid c akiOid).head? with
  | none => .ok none
  | some e =>
      match e.extnValue with
      | .aki v => .ok v.keyIdentifier
      | _ => .panic

/-- Model of `get_subject_key_identifier_kid`. -/
def getSubjectKeyIdentifierKidE (c : RasnCert) : PResult (Option Bytes) :=
  match (extensionsByOid c skiOid).head? with
  | none => .ok none
  | some e =>
      match e.extnValue with
      | .ski kid => .ok (some kid)
      | _ => .panic

/-- Model of `get_certificate_policies`. -/
def getCertificatePoliciesE (c : RasnCert) : PResult (List CertificatePolicy) :=
  match (extensionsByOid c CertificatePolicy.extOid).head? with
  | none => .ok []
  | some e =>
      match e.extnValue with
      | .policies l => CertificatePolicy.fromRasnPolicies l
      | _ => .panic

/-- Model of `get_authority_information_access`. -/
def getAuthorityInformationAccessE (w : ExtWorld) (c : RasnCert) :
    PResult (List AuthorityInfoAccessDescription) :=
  match (extensionsByOid c AuthorityInfoAccessDescription.extOid).head? with
  | none => .ok []
  | some e =>
      match e.extnValue with
      | .aia l => AuthorityInfoAccessDescription.fromRasnListE w l
      | _ => .panic

/-- Model of `get_alternative_name`. -/
def getAlternativeNameE (w : ExtWorld) (c : RasnCert) (oid : Oid) :
    PResult (List (WellKnownGeneralName × Str)) :=
  match (extensionsByOid c oid).head? with
  | none => .ok []
  | some e =>
      match e.extnValue with
      | .gns l => alternativeNameFromRasnE w l
      | _ => .panic

/-- Model of `get_subject_alternative_name`. -/
def getSubjectAlternativeNameE (w : ExtWorld) (c : RasnCert) :
    PResult (List (WellKnownGeneralName × Str)) :=
  getAlternativeNameE w c sanOid

/-- Model of `get_issuer_alternative_name`. -/
def getIssuerAlternativeNameE (w : ExtWorld) (c : RasnCert) :
    PResult (List (WellKnownGeneralName × Str)) :=
  getAlternativeNameE w c ianOid

/-!
## Path validator (src/cert/validate.rs,
src/cert/validate/checkers/basic_constraints_checker.rs)
-/

/-- The error kinds of `CertificateValidationError`. -/
inductive CertificateValidationErrorKind where
  | certificateParsingError
  | invalidSignature
  | unknownSignature
  | invalidLifeSpan
  | notOneLeaf
  | notTrusted
  | unhandledCriticalExtensions
  | extensionHandlingFailure
deriving DecidableEq, Repr

/-- Outcome of a validation step: a value, a value-returned error of the
given kind, or a Rust panic. -/
inductive VStep (α : Type) where
  | ok (a : α)
  | err (k : CertificateValidationErrorKind)
  | panic
deriving DecidableEq, Repr

namespace VStep

/-- Map over a successful step. -/
def map {α β : Type} (f : α → β) : VStep α → VStep β
  | .ok a => .ok (f a)
  | .err k => .err k
  | .panic => .panic

/-- Sequence two validation steps. -/
def bind {α β : Type} : VStep α → (α → VStep β) → VStep β
  | .ok a, f => f a
  | .err k, _ => .err k
  | .panic, _ => .panic

/-- Lift a possibly panicking computation into a validation step. -/
def liftP {α : Type} : PResult α → VStep α
  | .ok a => .ok a
  | .panic => .panic

end VStep

/-- Statuses of one extension checker run (the Rust trait returns
`Result<(), CertificateValidationError>` and mutates the skip set; the
model returns the new set). -/
abbrev ExtensionChecker : Type :=
  List CertificateParser → List Oid → VStep (List Oid)

/-- Insert-if-absent, the `SkipSet::insert` set semantics. -/
def oidSetInsert (s : List Oid) (o : Oid) : List Oid :=
  if s.contains o then s else s ++ [o]

/-- Replace-on-duplicate-key insert, the `SkipMap::insert` semantics. -/
def mapInsert {κ ν : Type} [DecidableEq κ] (m : List (κ × ν)) (k : κ) (v : ν) :
    List (κ × ν) :=
  (k, v) :: m.filter (fun p => p.1 ≠ k)

/-- Model of `CertificatePathValidator`. -/
structure CertificatePathValidator where
  fingerprintBySubject : List (Bytes × Str)
  trustAnchorsByFingerprint : List (Str × CertificateParser)
  allLeafsExtensionCheckers : List ExtensionChecker

/-- The anchor-loading loop of `CertificatePathValidator::new`: a parse
failure is value-returned as `CertificateParsingError`. -/
def newValidatorLoop (pw : PkiWorld) :
    List Bytes → CertificatePathValidator →
      Except CertificateValidationErrorKind CertificatePathValidator
  | [], v => .ok v
  | b :: t, v =>
      match CertificateParser.fromBytes pw b with
      | .error _ => .error .certificateParsingError
      | .ok ta =>
          newValidatorLoop pw t
            { v with
              trustAnchorsByFingerprint :=
                mapInsert v.trustAnchorsByFingerprint ta.fingerprint ta,
              fingerprintBySubject :=
                mapInsert v.fingerprintBySubject ta.certificate.subjectDer ta.fingerprint }

/-- Model of `CertificatePathValidator::new`. -/
def CertificatePathValidator.new (pw : PkiWorld) (trustedAnchorsDer : List Bytes) :
    Except CertificateValidationErrorKind CertificatePathValidator :=
  newValidatorLoop pw trustedAnchorsDer
    { fingerprintBySubject := [], trustAnchorsByFingerprint := [],
      allLeafsExtensionCheckers := [] }

/-- Model of `add_extension_checkers`. -/
def CertificatePathValidator.addExtensionCheckers (v : CertificatePathValidator)
    (cs : List ExtensionChecker) : CertificatePathValidator :=
  { v with allLeafsExtensionCheckers := v.allLeafsExtensionCheckers ++ cs }

/-- Step 1 of `validate`: parse every chain entry with `.unwrap()` (a
codec rejection PANICS) and reject on the first entry not valid at the
query time. -/
def parseAndTimeFilter (pw : PkiWorld) (t : Nat) : List Bytes → VStep (List CertificateParser)
  | [] => .ok []
  | b :: rest =>
      match CertificateParser.fromBytes pw b with
      | .error _ => .panic
      | .ok lcp =>
          (VStep.liftP (getValidityE lcp.certificate)).bind fun val =>
            if val.isValidAt t then (parseAndTimeFilter pw t rest).map (lcp :: ·)
            else .err .invalidLifeSpan

/-- Step 2 of `validate`: the leaf filter (`is_none_or(is_leaf)` over the
basic constraints of each certificate). -/
def leafFilterE : List CertificateParser → PResult (List CertificateParser)
  | [] => .ok []
  | c :: t =>
      (getBasicConstraintsE c.certificate).bind fun bc =>
        (leafFilterE t).map fun r =>
          if (match bc with | none => true | some b => b.isLeaf) then c :: r else r

/-- Remove the first element satisfying the predicate, returning it and
the remaining list (`position` then `remove`). -/
def extractFirst {α : Type} (p : α → Bool) : List α → Option (α × List α)
  | [] => none
  | a :: t =>
      if p a then some (a, t)
      else (extractFirst p t).map (fun r => (r.1, a :: r.2))

/-- Step 3 of `validate`: the ordering loop. It runs as many iterations
as there were certificates; when no next certificate matches, the error
message needs `leaf_chain.last().unwrap()`, which panics on an empty
ordered chain. -/
def orderChain : Nat → List CertificateParser → Bytes → List CertificateParser →
    VStep (List CertificateParser)
  | 0, _, _, acc => .ok acc
  | n + 1, pool, currentSubject, acc =>
      match extractFirst (fun cp => cp.certificate.subjectDer == currentSubject) pool with
      | some (cp, pool2) => orderChain n pool2 cp.certificate.issuerDer (acc ++ [cp])
      | none =>
          match acc.getLast? with
          | none => .panic
          | some _ => .err .notOneLeaf

/-- Step 4 of `validate`: attach trust. When a chain certificate IS a
registered anchor (matched by fingerprint) the chain is truncated to the
certificates BEFORE it (`leaf_chain[0..pos]`); otherwise the first
certificate whose issuer is a registered anchor subject gets that anchor
appended (`leaf_chain[0..=pos]` plus the anchor); otherwise NotTrusted. -/
def attachTrust (v : CertificatePathValidator) (leafChain : List CertificateParser) :
    VStep (List CertificateParser) :=
  match leafChain.findIdx?
      (fun cp => (v.trustAnchorsByFingerprint.lookup cp.fingerprint).isSome) with
  | some pos => .ok (leafChain.take pos)
  | none =>
      match leafChain.findIdx?
          (fun cp => (v.fingerprintBySubject.lookup cp.certificate.issuerDer).isSome) with
      | some pos =>
          match leafChain[pos]? with
          | none => .panic
          | some cp =>
              match v.fingerprintBySubject.lookup cp.certificate.issuerDer with
              | none => .panic
              | some fp =>
                  match v.trustAnchorsByFingerprint.lookup fp with
                  | none => .panic
                  | some trusted => .ok (leafChain.take (pos + 1) ++ [trusted])
      | none => .err .notTrusted

/-- Step 6 of `validate`: verify signatures from the anchor down. The
argument list is the reversed chain with its first element (the assumed
anchor position) dropped. -/
def verifyChainSigs (pw : PkiWorld) (issuer : CertificateParser) :
    List CertificateParser → VStep Unit
  | [] => .ok ()
  | cur :: rest =>
      match pw.seByOid (getEncodedSignature cur.certificate).1 with
      | none => .err .unknownSignature
      | some verify =>
          if verify issuer.certificate.spkiDer (getEncodedSignature cur.certificate).2
              cur.certificate.tbsDer then
            verifyChainSigs pw cur rest
          else .err .invalidSignature

/-- Step 7 of `validate`: collect the critical-extension OIDs of the
given certificates into the pending set. -/
def collectCritical (l : List CertificateParser) : List Oid :=
  l.foldl (fun s cp => (getCriticalExtensionOids cp.certificate).foldl oidSetInsert s) []

/-- Step 8 of `validate`: run checkers sequentially, threading the
pending-critical set. -/
def runCheckers : List ExtensionChecker → List CertificateParser → List Oid →
    VStep (List Oid)
  | [], _, s => .ok s
  | ch :: t, chain, s =>
      match ch chain s with
      | .ok s2 => runCheckers t chain s2
      | .err k => .err k
      | .panic => .panic

/-- Model of `CertificatePathValidator::validate`. -/
def CertificatePathValidator.validate (pw : PkiWorld) (v : CertificatePathValidator)
    (leafCertificateChainDer : List Bytes) (atEpochSeconds : Nat)
    (additionalExtensionCheckers : List ExtensionChecker) : VStep Unit :=
  (parseAndTimeFilter pw atEpochSeconds leafCertificateChainDer).bind fun leafCertificates =>
  (VStep.liftP (leafFilterE leafCertificates)).bind fun leafs =>
  if leafs.isEmpty then .err .notOneLeaf
  else if 1 < leafs.length then .err .notOneLeaf
  else
    match leafs.head? with
    | none => .panic
    | some leaf =>
        (orderChain leafCertificates.length leafCertificates
            leaf.certificate.subjectDer []).bind fun leafChain =>
        (attachTrust v leafChain).bind fun chainWithTrust =>
        match chainWithTrust.reverse with
        | [] => .panic
        | anchor :: restRev =>
            (VStep.liftP (getValidityE anchor.certificate)).bind fun anchorVal =>
            if !anchorVal.isValidAt atEpochSeconds then .err .invalidLifeSpan
            else
              (verifyChainSigs pw anchor restRev).bind fun _ =>
              (runCheckers v.allLeafsExtensionCheckers chainWithTrust
                  (collectCritical restRev)).bind fun c2 =>
              (runCheckers additionalExtensionCheckers chainWithTrust c2).bind fun c3 =>
              if c3.isEmpty then .ok () else .err .unhandledCriticalExtensions

/-- Model of `BasicConstraintsChecker::is_ca_with_sufficient_path_len`. -/
def isCaWithSufficientPathLen (bc : Option BasicConstraints) (requiredPathLen : Nat) : Bool :=
  match bc with
  | none => false
  | some b =>
      b.isCa &&
        (match b.pathLenAcc with
         | none => true
         | some pl => requiredPathLen ≤ pl)

/-- The lazy `.enumerate().skip(1).map(..).any(..)` of
`BasicConstraintsChecker::check_extensions` (short-circuits on the first
non-CA-or-insufficient entry; evaluates basic constraints on the way). -/
def bcCheckAnyE : List CertificateParser → Nat → PResult Bool
  | [], _ => .ok false
  | cp :: t, i =>
      if i = 0 then bcCheckAnyE t 1
      else
        (getBasicConstraintsE cp.certificate).bind fun bc =>
          if !isCaWithSufficientPathLen bc i then .ok true else bcCheckAnyE t (i + 1)

/-- Model of `BasicConstraintsChecker::check_extensions`: when the `any`
over the NEGATED per-level predicate is true the checker discharges the
BasicConstraints OID and succeeds, otherwise it rejects. -/
def basicConstraintsChecker : ExtensionChecker := fun chainWithTrust unresolvedExtensions =>
  match bcCheckAnyE chainWithTrust 0 with
  | .panic => .panic
  | .ok true => .ok (unresolvedExtensions.erase BasicConstraints.oid)
  | .ok false => .err .extensionHandlingFailure

/-!
## Well-formedness of inner extension content

The outer codec accepts a certificate whatever bytes its extension
values hold; the conditions below say that each present extension value
is a well-formed encoding of the type its OID announces, which is what
the parser readers need in order not to panic.
-/

/-- A timestamp the reader can represent (non-negative, so the
`u64::try_from` unwrap succeeds). -/
def rasnTimeOk : RasnTime → Prop
  | .utc ts => 0 ≤ ts
  | .general ts => 0 ≤ ts

/-- Both validity timestamps representable. -/
def rasnValidityOk (rv : RasnValidity) : Prop :=
  rasnTimeOk rv.notBefore ∧ rasnTimeOk rv.notAfter

/-- A path-length integer `integer_as_usize` handles without panicking
(only a negative primitive integer panics). -/
def rasnIntUsizeOk : RasnInteger → Prop
  | .primitive v => 0 ≤ v
  | .varBig _ => True

/-- A notice-number integer `integer_as_isize` handles without panicking
(only the bignum zero panics, on `dig.first().unwrap()`). -/
def rasnIntIsizeOk : RasnInteger → Prop
  | .primitive _ => True
  | .varBig v => v ≠ 0

/-- BasicConstraints content the conversion handles. -/
def bcValOk (r : RasnBasicConstraints) : Prop :=
  match r.pathLenConstraint with
  | none => True
  | some i => rasnIntUsizeOk i

/-- DisplayText that `display_text_as_string` renders without panicking
(BMP code units must be scalar values). -/
def dtOk : DisplayText → Prop
  | .bmp units => (units.mapM charFromU32).isSome
  | _ => True

/-- UserNotice content the conversion handles. -/
def userNoticeOk (nr : Option (DisplayText × List RasnInteger)) (et : Option DisplayText) :
    Prop :=
  (match et with
   | none => True
   | some d => dtOk d) ∧
  (match nr with
   | none => True
   | some p => dtOk p.1 ∧ ∀ n ∈ p.2, rasnIntIsizeOk n)

/-- PolicyInformation whose first qualifier (the one the loop inspects)
is a known qualifier with a matching, renderable payload. -/
def policyInfoOk (p : PolicyInformation) : Prop :=
  match p.policyQualifiers with
  | none => True
  | some [] => True
  | some (q :: _) =>
      (q.id = CertificatePolicy.oidQualifierIdCps ∧ ∃ d, q.qualifier = .dt d ∧ dtOk d) ∨
      (q.id = CertificatePolicy.oidQualifierIdUnotice ∧
        ∃ nr et, q.qualifier = .un nr et ∧ userNoticeOk nr et)

/-- Punycode decoding succeeds on every ACE label of the string. -/
def punyDecodeOkP (w : ExtWorld) (s : Str) : Prop :=
  ∀ p ∈ splitOnChar '.' (w.lower s), startsWithXn p = true → (w.idnaDecode (p.drop 4)).isSome

/-- A general name `WellKnownGeneralName::from_rasn_type` handles without
panicking: DirectoryName hits a `todo!`, an rfc822 name needs exactly one
`@` and a decodable domain, a DNS name a decodable form, an IP address 4
or 16 octets. -/
def gnOk (w : ExtWorld) : RasnGeneralName → Prop
  | .otherName _ _ => True
  | .rfc822Name s =>
      (splitOnChar '@' s).length = 2 ∧ punyDecodeOkP w ((splitOnChar '@' s).getD 1 [])
  | .dnsName s => punyDecodeOkP w s
  | .x400Address => True
  | .directoryName => False
  | .ediPartyName => True
  | .uri _ => True
  | .ipAddress b => b.length = 4 ∨ b.length = 16
  | .registeredId _ => True

/-- General-name forms with a well-known reading (the AIA path unwraps
the conversion, so a `None` reading panics there). -/
def gnKnownKind : RasnGeneralName → Prop
  | .rfc822Name _ => True
  | .dnsName _ => True
  | .uri _ => True
  | .ipAddress _ => True
  | .registeredId _ => True
  | _ => False

/-- Access description content the AIA reader handles. -/
def accessDescOk (w : ExtWorld) (ad : AccessDescription) : Prop :=
  gnOk w ad.accessLocation ∧ gnKnownKind ad.accessLocation

/-- Per-extension well-formedness: whenever the extension OID is one of
the recognised ones, the value is a well-formed encoding of the matching
type. -/
def extnOk (w : ExtWorld) (e : RasnExtension) : Prop :=
  (e.extnId = BasicConstraints.oid → ∃ r, e.extnValue = .bc r ∧ bcValOk r) ∧
  (e.extnId = KeyUsage.oid → ∃ bits, e.extnValue = .ku bits ∧ bits.length ≤ 9) ∧
  (e.extnId = ExtendedKeyUsage.extOid → ∃ oids, e.extnValue = .ekus oids) ∧
  (e.extnId = akiOid → ∃ v, e.extnValue = .aki v) ∧
  (e.extnId = skiOid → ∃ kid, e.extnValue = .ski kid) ∧
  (e.extnId = CertificatePolicy.extOid →
    ∃ ps, e.extnValue = .policies ps ∧ ∀ p ∈ ps, policyInfoOk p) ∧
  (e.extnId = AuthorityInfoAccessDescription.extOid →
    ∃ ads, e.extnValue = .aia ads ∧ ∀ a ∈ ads, accessDescOk w a) ∧
  ((e.extnId = sanOid ∨ e.extnId = ianOid) →
    ∃ gs, e.extnValue = .gns gs ∧ ∀ g ∈ gs, gnOk w g)

/-- Well-formedness of the whole parsed certificate, as the readers need
it. -/
def certReadersWF (w : ExtWorld) (c : RasnCert) : Prop :=
  rasnValidityOk c.validity ∧ ∀ e ∈ c.extensions.getD [], extnOk w e

/-!
## Concrete inputs used by the evaluation theorems
-/

/-- A degenerate external text world (identity lowercase, no idna). -/
def wId : ExtWorld :=
  { lower := id, idnaEncode := fun _ => none, idnaDecode := fun _ => none,
    ipToString := fun _ => [], parseIp := fun _ => none, oidNew := some }

/-- A leaf certificate without BasicConstraints (subject `[10]`, issuer
`[11]`), carrying one unrecognised critical extension `1.2.3`. -/
def exLeafCert : RasnCert :=
  { serialNumber := .primitive 1, subjectDer := [10], issuerDer := [11],
    validity := { notBefore := .general 0, notAfter := .general 100 },
    spkiDer := [20], tbsDer := [21], sigAlgOid := [1, 2], sigValue := [22],
    extensions := some [{ extnId := [1, 2, 3], critical := true, extnValue := .raw [] }] }

/-- A CA certificate (subject `[11]`, self-issued) with critical
BasicConstraints `ca = true`, no path length. -/
def exCaCert : RasnCert :=
  { serialNumber := .primitive 2, subjectDer := [11], issuerDer := [11],
    validity := { notBefore := .general 0, notAfter := .general 100 },
    spkiDer := [30], tbsDer := [31], sigAlgOid := [1, 2], sigValue := [32],
    extensions := some [{ extnId := BasicConstraints.oid, critical := true,
                          extnValue := .bc { ca := true, pathLenConstraint := none } }] }

/-- A certificate like the leaf but with a non-CA BasicConstraints. -/
def exNonCaCert : RasnCert :=
  { exCaCert with
    extensions := some [{ extnId := BasicConstraints.oid, critical := true,
                          extnValue := .bc { ca := false, pathLenConstraint := none } }] }

/-- A self-signed anchor certificate without extensions (subject `[5]`). -/
def exAnchorCert : RasnCert :=
  { serialNumber := .primitive 3, subjectDer := [5], issuerDer := [5],
    validity := { notBefore := .general 0, notAfter := .general 100 },
    spkiDer := [40], tbsDer := [41], sigAlgOid := [1, 2], sigValue := [42],
    extensions := none }

/-- A certificate whose BasicConstraints extension value is not a
BasicConstraints encoding. -/
def exBadBcCert : RasnCert :=
  { exAnchorCert with
    extensions := some [{ extnId := BasicConstraints.oid, critical := false,
                          extnValue := .raw [0] }] }

/-- World for the single-anchor runs: byte string `[0]` decodes to the
anchor certificate, nothing else decodes. -/
def pkiWorldAnchorOnly : PkiWorld :=
  { decodeCert := fun b => if b = [0] then some exAnchorCert else none,
    fpData := fun b => if b = [0] then ['a'] else ['z'],
    seByOid := fun _ => none }

/-- The validator loaded with the single anchor `[0]`. -/
def exValidatorAnchorOnly : CertificatePathValidator :=
  match CertificatePathValidator.new pkiWorldAnchorOnly [[0]] with
  | .ok v => v
  | .error _ =>
      { fingerprintBySubject := [], trustAnchorsByFingerprint := [],
        allLeafsExtensionCheckers := [] }

/-- World for the leaf-plus-in-chain-anchor run: `[0]` decodes to the
leaf, `[1]` to the CA certificate (which is also the registered anchor). -/
def pkiWorldLeafAndRoot : PkiWorld :=
  { decodeCert := fun b => if b = [0] then some exLeafCert
      else if b = [1] then some exCaCert else none,
    fpData := fun b => if b = [0] then ['l'] else if b = [1] then ['r'] else ['z'],
    seByOid := fun _ => none }

/-- The validator loaded with the CA certificate `[1]` as anchor. -/
def exValidatorLeafAndRoot : CertificatePathValidator :=
  match CertificatePathValidator.new pkiWorldLeafAndRoot [[1]] with
  | .ok v => v
  | .error _ =>
      { fingerprintBySubject := [], trustAnchorsByFingerprint := [],
        allLeafsExtensionCheckers := [] }

/-- The extension list produced by calling `add_basic_constraints` twice. -/
def exDupBcExts : List RasnExtension :=
  [{ extnId := BasicConstraints.oid, critical := false,
     extnValue := .bc { ca := false, pathLenConstraint := none } },
   { extnId := BasicConstraints.oid, critical := false,
     extnValue := .bc { ca := false, pathLenConstraint := none } }]

/-!
## Theorems
-/

namespace SerialNumberM

theorem maskTopBit_length (l : List Nat) : (maskTopBit l).length = l.length := by
  cases l <;> simp [maskTopBit]

theorem generateLoop_some {octets : Nat} {fills : Nat → Nat → Nat} {k fuel : Nat}
    {res : List Nat} (h : generateLoop octets fills k fuel = some res) :
    res.length = octets ∧ res.any (fun o => o ≠ 0) = true ∧ res.headD 0 < 128 ∨ octets = 0 := by
  induction fuel generalizing k with
  | zero => simp [generateLoop] at h
  | succ n ih =>
      rw [generateLoop] at h
      by_cases hc : (maskTopBit (prngFill fills k octets)).any (fun o => o ≠ 0) = true
      · simp only [hc, if_true] at h
        obtain rfl := Option.some.inj h
        rcases Nat.eq_zero_or_pos octets with hz | hp
        · exact Or.inr hz
        · left
          have hlen : (maskTopBit (prngFill fills k octets)).length = octets := by
            rw [maskTopBit_length]
            simp [prngFill]
          refine ⟨hlen, hc, ?_⟩
          cases hpf : prngFill fills k octets with
          | nil =>
              rw [hpf] at hlen
              simp [maskTopBit] at hlen
              omega
          | cons a t =>
              simp only [maskTopBit, List.headD]
              exact Nat.mod_lt _ (by norm_num)
      · simp only [hc, if_false] at h
        exact ih h

/-- Claim C7: every serial number that `SerialNumber::generate` returns
(for any requested octet count, any PRNG behaviour, and any number of
retries) has between 9 and 20 octets, is non-zero, and has the top bit of
its most significant octet cleared, hence is a positive big-endian
integer. -/
theorem serial_number_generate_invariant (octets : Option Nat) (fills : Nat → Nat → Nat)
    (fuel : Nat) (res : List Nat) (h : generate octets fills fuel = some res) :
    9 ≤ res.length ∧ res.length ≤ 20 ∧ res.any (fun o => o ≠ 0) = true ∧ res.headD 0 < 128 := by
  have hcl : 9 ≤ rustClamp (octets.getD 20) ∧ rustClamp (octets.getD 20) ≤ 20 := by
    unfold rustClamp
    omega
  rcases generateLoop_some h with ⟨hlen, hnz, hhd⟩ | hz
  · exact ⟨by omega, by omega, hnz, hhd⟩
  · omega

/-- Witness: a concrete PRNG that always fills with byte 1 makes
`generate` return a 20-octet serial satisfying the invariant. -/
theorem serial_number_generate_invariant_witness :
    9 ≤ (List.replicate 20 1).length ∧ (List.replicate 20 1).length ≤ 20 ∧
      (List.replicate 20 1).any (fun o => o ≠ 0) = true ∧ (List.replicate 20 1).headD 0 < 128 :=
  serial_number_generate_invariant none (fun _ _ => 1) 1 (List.replicate 20 1) (by decide)

end SerialNumberM

theorem rustTruncate_of_le (s : Str) (n : Nat) (h : strBytes s ≤ n) :
    rustTruncate s n = some s := by
  induction s generalizing n with
  | nil => cases n <;> simp [rustTruncate]
  | cons c t ih =>
      have hsz : 1 ≤ c.utf8Size := Char.utf8Size_pos c
      have hb : strBytes (c :: t) = c.utf8Size + strBytes t := by
        simp [strBytes]
      cases n with
      | zero => omega
      | succ b =>
          have hc : c.utf8Size ≤ b + 1 := by omega
          rw [rustTruncate, if_pos hc, ih (b + 1 - c.utf8Size) (by omega)]
          rfl

/-- Claim C6 (code behaviour at the failing input): a user-notice
explicit text of 100 three-byte characters (well under 200 characters,
so the claim says it is emitted unchanged) makes the emit path panic,
because `String::truncate(200)` cuts at byte 200, which falls inside a
character. -/
theorem user_notice_truncation_panics_at_100_euro_signs :
    CertificatePolicy.emitExplicitText (some (List.replicate 100 (Char.ofNat 8364))) =
      PResult.panic := by decide

/-- Claim C1 (code behaviour at a failing input): on a two-certificate
chain whose non-leaf IS a CA with sufficient path length the checker
rejects with ExtensionHandlingFailure, while on a chain whose non-leaf is
NOT a CA it succeeds and discharges the BasicConstraints OID — the exact
inverse of the claimed rule, caused by the un-negated `.any(|..| !is_ca..)`
condition. -/
theorem basic_constraints_checker_is_inverted :
    basicConstraintsChecker
        [{ certificate := exLeafCert, fingerprint := ['l'] },
         { certificate := exCaCert, fingerprint := ['c'] }]
        [BasicConstraints.oid] = .err .extensionHandlingFailure ∧
    basicConstraintsChecker
        [{ certificate := exLeafCert, fingerprint := ['l'] },
         { certificate := exNonCaCert, fingerprint := ['n'] }]
        [BasicConstraints.oid] = .ok [] := by
  constructor
  · decide
  · decide

/-- Claim C2 (code behaviour at the failing input): a chain consisting of
exactly the registered trust anchor (valid at the query time, no critical
extensions, no checkers installed) makes `validate` PANIC: the anchor
match truncates the chain to `leaf_chain[0..pos]` which is empty, and
`chain_with_trust.last().unwrap()` unwraps `None`. -/
theorem validate_panics_on_single_anchor_chain :
    CertificatePathValidator.new pkiWorldAnchorOnly [[0]] = .ok exValidatorAnchorOnly ∧
    CertificatePathValidator.validate pkiWorldAnchorOnly exValidatorAnchorOnly
        [[0]] 50 [] = .panic := by
  constructor
  · rfl
  · decide

/-- Claim C3 (code behaviour at the failing input): when the trust anchor
is matched INSIDE the chain (case (a) of trust attachment), the
pending-critical set is built from `chain_with_trust.iter().rev().skip(1)`,
which here skips the leaf itself; the leaf carries critical extension
`1.2.3`, no checker runs, and `validate` still accepts the chain. -/
theorem validate_accepts_unhandled_critical_in_case_a :
    CertificatePathValidator.validate pkiWorldLeafAndRoot exValidatorLeafAndRoot
        [[0], [1]] 50 [] = .ok () ∧
    getCriticalExtensionOids exLeafCert = [[1, 2, 3]] := by
  constructor
  · decide
  · decide

/-- Claim C4 (code behaviour at the failing input): a chain entry the
codec rejects is value-returned as `CertificateDecodingError` by
`CertificateParser::from_bytes`, but `validate` unwraps that result and
PANICS instead of returning a `CertificateValidationError`. -/
theorem validate_panics_on_undecodable_chain_entry :
    CertificateParser.fromBytes pkiWorldAnchorOnly [9] = .error () ∧
    CertificatePathValidator.validate pkiWorldAnchorOnly exValidatorAnchorOnly
        [[9]] 50 [] = .panic := by
  constructor
  · rfl
  · decide

/-- Claim C9 (counterexample): two `add_basic_constraints` calls push two
extensions with the same OID — `add_extension` never deduplicates. -/
theorem extensions_builder_duplicate_oid_counterexample :
    runAddOps wId []
        [.basicConstraints BasicConstraints.newLeaf,
         .basicConstraints BasicConstraints.newLeaf] = .ok exDupBcExts ∧
    ¬ (exDupBcExts.map RasnExtension.extnId).Nodup := by
  constructor
  · decide
  · decide

theorem runAddOp_oids (w : ExtWorld) (e : List RasnExtension) (op : AddOp)
    (r : List RasnExtension) (h : runAddOp w e op = .ok r) :
    r.map RasnExtension.extnId = e.map RasnExtension.extnId ∨
    r.map RasnExtension.extnId = e.map RasnExtension.extnId ++ [op.opOid] := by
  cases op with
  | basicConstraints b =>
      simp only [runAddOp, PResult.ok.injEq] at h
      subst h
      right
      simp [addBasicConstraints, addExtension, AddOp.opOid]
  | keyUsage kus =>
      simp only [runAddOp, PResult.ok.injEq] at h
      subst h
      by_cases hk : kus.isEmpty
      · left; simp [addKeyUsage, hk]
      · right; simp [addKeyUsage, hk, addExtension, AddOp.opOid]
  | authorityInformationAccess ads =>
      simp only [runAddOp] at h
      unfold addAuthorityInformationAccess at h
      by_cases ha : ads.isEmpty
      · rw [if_pos ha] at h
        injection h with h
        subst h
        left; rfl
      · rw [if_neg ha] at h
        cases ht : AuthorityInfoAccessDescription.toRasnListE w ads with
        | panic => rw [ht] at h; simp [PResult.map] at h
        | ok l =>
            rw [ht] at h
            simp only [PResult.map, PResult.ok.injEq] at h
            subst h
            right; simp [addExtension, AddOp.opOid]
  | certificatePolicies ps =>
      simp only [runAddOp] at h
      unfold addCertificatePolicies at h
      by_cases hp : ps.isEmpty
      · rw [if_pos hp] at h
        injection h with h
        subst h
        left; rfl
      · rw [if_neg hp] at h
        cases ht : CertificatePolicy.toRasnPolicies ps with
        | panic => rw [ht] at h; simp [PResult.map] at h
        | ok l =>
            rw [ht] at h
            simp only [PResult.map, PResult.ok.injEq] at h
            subst h
            right; simp [addExtension, AddOp.opOid]
  | crlDistributionPoints uri =>
      simp only [runAddOp] at h
      unfold addCrlDistributionPoints at h
      cases ht : cdpToRasnE uri with
      | panic => rw [ht] at h; simp [PResult.map] at h
      | ok l =>
          rw [ht] at h
          simp only [PResult.map, PResult.ok.injEq] at h
          subst h
          right; simp [addExtension, AddOp.opOid]
  | authorityKeyIdentifier a =>
      simp only [runAddOp, PResult.ok.injEq] at h
      subst h
      right
      simp [addAuthorityKeyIdentifier, addExtension, AddOp.opOid]
  | subjectKeyIdentifier kid =>
      simp only [runAddOp, PResult.ok.injEq] at h
      subst h
      right
      simp [addSubjectKeyIdentifier, addExtension, AddOp.opOid]
  | extendedKeyUsage ekus =>
      simp only [runAddOp] at h
      unfold addExtendedKeyUsage at h
      by_cases he : ekus.isEmpty
      · rw [if_pos he] at h
        injection h with h
        subst h
        left; rfl
      · rw [if_neg he] at h
        cases ht : ExtendedKeyUsage.toRasnE ekus with
        | panic => rw [ht] at h; simp [PResult.map] at h
        | ok l =>
            rw [ht] at h
            simp only [PResult.map, PResult.ok.injEq] at h
            subst h
            right; simp [addExtension, AddOp.opOid]
  | subjectAlternativeName sans dnEmpty =>
      simp only [runAddOp] at h
      unfold addSubjectAlternativeName at h
      by_cases hs : sans.isEmpty
      · rw [if_pos hs] at h
        injection h with h
        subst h
        left; rfl
      · rw [if_neg hs] at h
        cases ht : alternativeNameToRasnE w sans with
        | panic => rw [ht] at h; simp [PResult.map] at h
        | ok l =>
            rw [ht] at h
            simp only [PResult.map, PResult.ok.injEq] at h
            subst h
            right; simp [addExtension, AddOp.opOid]
  | issuerAlternativeName ians =>
      simp only [runAddOp] at h
      unfold addIssuerAlternativeName at h
      by_cases hs : ians.isEmpty
      · rw [if_pos hs] at h
        injection h with h
        subst h
        left; rfl
      · rw [if_neg hs] at h
        cases ht : alternativeNameToRasnE w ians with
        | panic => rw [ht] at h; simp [PResult.map] at h
        | ok l =>
            rw [ht] at h
            simp only [PResult.map, PResult.ok.injEq] at h
            subst h
            right; simp [addExtension, AddOp.opOid]

theorem runAddOps_oids_sublist (w : ExtWorld) (ops : List AddOp) :
    ∀ (e res : List RasnExtension), runAddOps w e ops = .ok res →
      List.Sublist (res.map RasnExtension.extnId)
        (e.map RasnExtension.extnId ++ ops.map AddOp.opOid) := by
  induction ops with
  | nil =>
      intro e res h
      simp only [runAddOps, PResult.ok.injEq] at h
      subst h
      simp
  | cons op t ih =>
      intro e res h
      simp only [runAddOps] at h
      cases h1 : runAddOp w e op with
      | panic => rw [h1] at h; simp [PResult.bind] at h
      | ok e2 =>
          rw [h1] at h
          simp only [PResult.bind] at h
          have hsub := ih e2 res h
          rcases runAddOp_oids w e op e2 h1 with heq | heq
          · rw [heq] at hsub
            refine hsub.trans ?_
            simp only [List.map_cons]
            exact List.Sublist.append_left (List.sublist_cons_self _ _) _
          · rw [heq] at hsub
            simp only [List.map_cons]
            simpa [List.append_assoc] using hsub

/-- Claim C9 (amended): for every sequence of builder calls whose
extension OIDs are pairwise distinct (in particular, each `add_*` method
called at most once), the resulting insertion-ordered extension list has
at most one extension per OID. -/
theorem extensions_builder_unique_oids_when_calls_distinct (w : ExtWorld) (ops : List AddOp)
    (res : List RasnExtension) (hops : (ops.map AddOp.opOid).Nodup)
    (h : runAddOps w [] ops = .ok res) : (res.map RasnExtension.extnId).Nodup := by
  have hs := runAddOps_oids_sublist w ops [] res h
  simp only [List.map_nil, List.nil_append] at hs
  exact List.Nodup.sublist hs hops

/-- Witness for the amended C9 theorem at a concrete two-call run. -/
theorem extensions_builder_unique_oids_witness :
    (([{ extnId := BasicConstraints.oid, critical := false,
         extnValue := .bc { ca := false, pathLenConstraint := none } },
       { extnId := KeyUsage.oid, critical := true,
         extnValue := .ku [true] }] : List RasnExtension).map RasnExtension.extnId).Nodup :=
  extensions_builder_unique_oids_when_calls_distinct wId
    [.basicConstraints BasicConstraints.newLeaf, .keyUsage [.digitalSignature]] _
    (by decide) (by decide)

/-- Claim C8: the SubjectAlternativeName extension emitted by the builder
is critical exactly when the caller flags the subject DN as empty; an
empty SAN list and an empty KeyUsage list each omit their extension
entirely. -/
theorem san_criticality_and_empty_omission (w : ExtWorld) (exts : List RasnExtension)
    (sans : List (WellKnownGeneralName × Str)) (subjectDnEmpty : Bool) :
    addSubjectAlternativeName w exts [] subjectDnEmpty = .ok exts ∧
    addKeyUsage exts [] = exts ∧
    (∀ res, addSubjectAlternativeName w exts sans subjectDnEmpty = .ok res → sans ≠ [] →
      ∃ gns, res = exts ++ [{ extnId := sanOid, critical := subjectDnEmpty,
                              extnValue := .gns gns }]) := by
  refine ⟨by simp [addSubjectAlternativeName], by simp [addKeyUsage], ?_⟩
  intro res h hne
  unfold addSubjectAlternativeName at h
  rw [if_neg (by simpa using hne)] at h
  cases ht : alternativeNameToRasnE w sans with
  | panic => rw [ht] at h; simp [PResult.map] at h
  | ok gns =>
      rw [ht] at h
      simp only [PResult.map, PResult.ok.injEq] at h
      exact ⟨gns, h.symm ▸ rfl⟩

/-- Witness for the C8 theorem at a concrete one-entry SAN list with an
empty subject DN. -/
theorem san_criticality_and_empty_omission_witness :
    ∃ gns, [({ extnId := sanOid, critical := true,
               extnValue := .gns [.uri ['a']] } : RasnExtension)] =
      [] ++ [{ extnId := sanOid, critical := true, extnValue := .gns gns }] :=
  (san_criticality_and_empty_omission wId [] [(.uri, ['a'])] true).2.2 _ (by decide) (by decide)

theorem pmapList_congr_ok {α β : Type} (f : α → PResult β) (g : α → β) (l : List α)
    (h : ∀ a ∈ l, f a = .ok (g a)) : pmapList f l = .ok (l.map g) := by
  induction l with
  | nil => rfl
  | cons a t ih =>
      have ha := h a (List.mem_cons_self a t)
      have ht := ih (fun x hx => h x (List.mem_cons_of_mem a hx))
      simp [pmapList, ha, ht, PResult.bind, PResult.map]

theorem getD_replicate_false (n m : Nat) : (List.replicate n false).getD m false = false := by
  induction n generalizing m with
  | zero => simp [List.getD]
  | succ k ih =>
      cases m with
      | zero => simp [List.replicate]
      | succ j => simp only [List.replicate, List.getD_cons_succ]
                  exact ih j

theorem trimTrailingFalse_decomp (l : List Bool) :
    ∃ n, l = KeyUsage.trimTrailingFalse l ++ List.replicate n false := by
  refine ⟨(l.reverse.takeWhile (fun b => b == false)).length, ?_⟩
  conv_lhs => rw [← l.reverse_reverse]
  conv_lhs =>
    rw [← List.takeWhile_append_dropWhile (p := fun b => b == false) (l := l.reverse)]
  rw [List.reverse_append]
  unfold KeyUsage.trimTrailingFalse
  congr 1
  have hall : ∀ b ∈ l.reverse.takeWhile (fun b => b == false), b = false := by
    intro b hb
    simpa using List.mem_takeWhile_imp hb
  calc (l.reverse.takeWhile (fun b => b == false)).reverse
      = (List.replicate (l.reverse.takeWhile (fun b => b == false)).length false).reverse := by
        rw [← List.eq_replicate_of_mem hall]
    _ = List.replicate (l.reverse.takeWhile (fun b => b == false)).length false := by
        rw [List.reverse_replicate]

theorem trimTrailingFalse_getD (l : List Bool) (i : Nat) :
    (KeyUsage.trimTrailingFalse l).getD i false = l.getD i false := by
  obtain ⟨n, hl⟩ := trimTrailingFalse_decomp l
  conv_rhs => rw [hl]
  by_cases hi : i < (KeyUsage.trimTrailingFalse l).length
  · rw [List.getD_append _ _ _ _ hi]
  · rw [List.getD_eq_default _ _ (Nat.le_of_not_lt hi),
      List.getD_append_right _ _ _ _ (Nat.le_of_not_lt hi)]
    exact (getD_replicate_false _ _).symm

theorem map_range_getD {α : Type} (l : List α) (d : α) :
    (List.range l.length).map (fun i => l.getD i d) = l := by
  apply List.ext_getElem
  · simp
  · intro i h1 h2
    simp only [List.getElem_map, List.getElem_range]
    rw [List.getD_eq_getElem]

theorem trimTrailingFalse_length_le (l : List Bool) :
    (KeyUsage.trimTrailingFalse l).length ≤ l.length := by
  unfold KeyUsage.trimTrailingFalse
  calc ((l.reverse.dropWhile (fun b => b == false)).reverse).length
      = (l.reverse.dropWhile (fun b => b == false)).length := by rw [List.length_reverse]
    _ ≤ l.reverse.length := (List.dropWhile_suffix _).sublist.length_le
    _ = l.length := List.length_reverse l

theorem ku_round_trip (kus : List KeyUsage) :
    kuDecodeArr (KeyUsage.toRasn kus) =
      .ok (KeyUsage.msbOrderedKus.map (fun k => kus.contains k)) := by
  have h9 : (KeyUsage.msbOrderedKus.map (fun ku => kus.contains ku)).length = 9 := by
    simp [KeyUsage.msbOrderedKus]
  have hlen : (KeyUsage.toRasn kus).length ≤ 9 := by
    unfold KeyUsage.toRasn
    calc (KeyUsage.trimTrailingFalse
            (KeyUsage.msbOrderedKus.map (fun ku => kus.contains ku))).length
        ≤ (KeyUsage.msbOrderedKus.map (fun ku => kus.contains ku)).length :=
          trimTrailingFalse_length_le _
      _ = 9 := h9
  unfold kuDecodeArr
  rw [if_pos hlen]
  congr 1
  calc (List.range 9).map (fun i => (KeyUsage.toRasn kus).getD i false)
      = (List.range 9).map
          (fun i => (KeyUsage.msbOrderedKus.map (fun ku => kus.contains ku)).getD i false) := by
        refine List.map_congr_left ?_
        intro i _
        exact trimTrailingFalse_getD _ i
    _ = KeyUsage.msbOrderedKus.map (fun ku => kus.contains ku) := by
        conv_lhs => rw [← h9]
        exact map_range_getD _ false

theorem bc_round_trip (b : BasicConstraints) :
    BasicConstraints.fromRasnE (BasicConstraints.toRasn b) = .ok b := by
  obtain ⟨ca, pl⟩ := b
  cases pl with
  | none => rfl
  | some n =>
      have h1 : ¬ ((n : Int) < 0) := by omega
      simp [BasicConstraints.toRasn, BasicConstraints.fromRasnE, integerAsUsizeE, h1,
        PResult.map]

theorem eku_single_round_trip (e : ExtendedKeyUsage) (h : e.isCustom = false) :
    ∃ o, ExtendedKeyUsage.valueE e = .ok o ∧ ExtendedKeyUsage.fromOid o = e := by
  cases e
  case custom o => simp [ExtendedKeyUsage.isCustom] at h
  all_goals exact ⟨_, rfl, by decide⟩

theorem eku_list_round_trip (l : List ExtendedKeyUsage)
    (h : ∀ e ∈ l, e.isCustom = false) :
    ∃ oids, ExtendedKeyUsage.toRasnE l = .ok oids ∧
      oids.map ExtendedKeyUsage.fromOid = l := by
  induction l with
  | nil => exact ⟨[], rfl, rfl⟩
  | cons e t ih =>
      obtain ⟨o, ho, hf⟩ := eku_single_round_trip e (h e (List.mem_cons_self e t))
      obtain ⟨oids, hto, hm⟩ := ih (fun x hx => h x (List.mem_cons_of_mem e hx))
      refine ⟨o :: oids, ?_, ?_⟩
      · simp [ExtendedKeyUsage.toRasnE, pmapList, ho, PResult.bind] at hto ⊢
        simp [hto, PResult.map]
      · simp [hf, hm]

theorem pmapList_primitive_ints (nums : List Int) :
    pmapList integerAsIsizeE (nums.map RasnInteger.primitive) = .ok nums := by
  induction nums with
  | nil => rfl
  | cons n t ih => simp [pmapList, integerAsIsizeE, PResult.bind, ih, PResult.map]

theorem policy_oid_round_trip (oid : Oid) :
    CertificatePolicy.fromPolicyInformationE (CertificatePolicy.asOidPolicy oid) =
      .ok (.oidPolicy oid) := rfl

theorem policy_csp_round_trip (oid : Oid) (uri : Str) (h : isAsciiStr uri = true) :
    (CertificatePolicy.asCspPolicy oid uri).bind CertificatePolicy.fromPolicyInformationE =
      .ok (.cspPolicy oid uri) := by
  unfold CertificatePolicy.asCspPolicy ia5TryFrom
  rw [if_pos (by simpa [isAsciiStr] using h)]
  simp [PResult.bind, CertificatePolicy.fromPolicyInformationE,
    CertificatePolicy.fromPolicyQualifiers, CertificatePolicy.fromCspPolicy,
    decodeDisplayText, displayTextAsString, PResult.map]

theorem policy_user_notice_round_trip (oid : Oid) (nr : Option (Str × List Int))
    (et : Option Str) (h : et = none ∨ ∃ s, et = some s ∧ s ≠ [] ∧ strBytes s ≤ 200) :
    (CertificatePolicy.asUserNoticePolicy oid nr et).bind
        CertificatePolicy.fromPolicyInformationE =
      .ok (.userNoticePolicy oid nr et) := by
  have hemit : CertificatePolicy.emitExplicitText et = .ok et := by
    rcases h with rfl | ⟨s, rfl, hne, hle⟩
    · rfl
    · simp only [CertificatePolicy.emitExplicitText]
      rw [if_neg (by simpa using hne), rustTruncate_of_le s 200 hle]
  unfold CertificatePolicy.asUserNoticePolicy
  rw [hemit]
  cases et with
  | none =>
      cases nr with
      | none => rfl
      | some p =>
          simp [PResult.map, PResult.bind, CertificatePolicy.fromPolicyInformationE,
            CertificatePolicy.fromPolicyQualifiers, CertificatePolicy.fromUserNoticePolicy,
            decodeUserNotice, displayTextAsString, pmapList_primitive_ints]
          intro hq
          exact absurd hq (by decide)
  | some s =>
      cases nr with
      | none =>
          simp [PResult.map, PResult.bind, CertificatePolicy.fromPolicyInformationE,
            CertificatePolicy.fromPolicyQualifiers, CertificatePolicy.fromUserNoticePolicy,
            decodeUserNotice, displayTextAsString]
          intro hq
          exact absurd hq (by decide)
      | some p =>
          simp [PResult.map, PResult.bind, CertificatePolicy.fromPolicyInformationE,
            CertificatePolicy.fromPolicyQualifiers, CertificatePolicy.fromUserNoticePolicy,
            decodeUserNotice, displayTextAsString, pmapList_primitive_ints]
          intro hq
          exact absurd hq (by decide)

theorem splitOnCharAux_ne_nil (sep : Char) (s acc : Str) :
    splitOnCharAux sep s acc ≠ [] := by
  induction s generalizing acc with
  | nil => simp [splitOnCharAux]
  | cons c t ih =>
      by_cases hc : c = sep
      · simp [splitOnCharAux, hc]
      · simpa [splitOnCharAux, hc] using ih (c :: acc)

theorem joinWithChar_cons (sep : Char) (x : Str) (r : List Str) (h : r ≠ []) :
    joinWithChar sep (x :: r) = x ++ sep :: joinWithChar sep r := by
  cases r with
  | nil => exact absurd rfl h
  | cons y t => rfl

theorem joinWithChar_splitOnCharAux (sep : Char) (s acc : Str) :
    joinWithChar sep (splitOnCharAux sep s acc) = acc.reverse ++ s := by
  induction s generalizing acc with
  | nil => simp [splitOnCharAux, joinWithChar]
  | cons c t ih =>
      by_cases hc : c = sep
      · rw [splitOnCharAux, if_pos hc,
          joinWithChar_cons sep _ _ (splitOnCharAux_ne_nil sep t []),
          ih []]
        simp [hc]
      · rw [splitOnCharAux, if_neg hc, ih (c :: acc)]
        simp

theorem joinWithChar_splitOnChar (sep : Char) (s : Str) :
    joinWithChar sep (splitOnChar sep s) = s := by
  simpa using joinWithChar_splitOnCharAux sep s []

theorem punyEncodeE_of_plain (w : ExtWorld) (v : Str) (hl : w.lower v = v)
    (hp : ∀ p ∈ splitOnChar '.' v, isAsciiStr p = true) :
    punyEncodeE w v = .ok v := by
  unfold punyEncodeE
  rw [hl]
  rw [pmapList_congr_ok _ id _ (by
    intro p hpmem
    simp only [hp p hpmem, if_pos]
    rfl)]
  simp [PResult.map, joinWithChar_splitOnChar]

theorem punyDecodeE_of_plain (w : ExtWorld) (v : Str) (hl : w.lower v = v)
    (hx : ∀ p ∈ splitOnChar '.' v, startsWithXn p = false) :
    punyDecodeE w v = .ok v := by
  unfold punyDecodeE
  rw [hl]
  rw [pmapList_congr_ok _ id _ (by
    intro p hpmem
    simp [hx p hpmem])]
  simp [PResult.map, joinWithChar_splitOnChar]

theorem dns_round_trip (w : ExtWorld) (v : Str) (hl : w.lower v = v)
    (ha : isAsciiStr v = true)
    (hp : ∀ p ∈ splitOnChar '.' v, isAsciiStr p = true)
    (hx : ∀ p ∈ splitOnChar '.' v, startsWithXn p = false) :
    (WellKnownGeneralName.toRasnE w .dnsName v).bind (WellKnownGeneralName.fromRasnE w) =
      .ok (some (.dnsName, v)) := by
  have he := punyEncodeE_of_plain w v hl hp
  have hd := punyDecodeE_of_plain w v hl hx
  simp only [WellKnownGeneralName.toRasnE, he, PResult.bind]
  rw [ia5TryFrom, if_pos (by simpa [isAsciiStr] using ha)]
  simp [WellKnownGeneralName.fromRasnE, WellKnownGeneralName.toDnsName, hd, PResult.map,
    PResult.bind]

theorem uri_round_trip (w : ExtWorld) (v : Str) (ha : isAsciiStr v = true) :
    (WellKnownGeneralName.toRasnE w .uri v).bind (WellKnownGeneralName.fromRasnE w) =
      .ok (some (.uri, v)) := by
  simp only [WellKnownGeneralName.toRasnE]
  rw [ia5TryFrom, if_pos (by simpa [isAsciiStr] using ha)]
  simp [WellKnownGeneralName.fromRasnE, PResult.bind]

/-- Claim C5 (counterexample): a UserNotice policy whose explicit text is
`Some("")` does not round-trip — the emit path drops empty text, so
decoding yields a policy with no explicit text. -/
theorem policy_round_trip_counterexample :
    (CertificatePolicy.asPolicyInformation
        (.userNoticePolicy [1] none (some []))).bind
      CertificatePolicy.fromPolicyInformationE =
        .ok (.userNoticePolicy [1] none none) ∧
    CertificatePolicy.userNoticePolicy [1] none none ≠
      .userNoticePolicy [1] none (some []) := by
  constructor
  · decide
  · decide

/-- Claim C5 (amended): decode-after-encode is the identity for the typed
extension values, under the conditions the code imposes: always for
BasicConstraints, KeyUsage (read back as the 9-slot flag array) and
key-identifier bytes; for ExtendedKeyUsage lists without the Custom
variant (whose emission panics); for OID-only and CPS policies (the CPS
URI must be IA5); for UserNotice policies whose explicit text is absent
or non-empty and at most 200 UTF-8 bytes (empty text is dropped, longer
text truncated); and for DnsName/Uri alternative names already in
lowercase ASCII wire form (DNS names are otherwise lowercased and
punycoded on the wire). -/
theorem extension_round_trips_amended (w : ExtWorld) :
    (∀ b : BasicConstraints,
        BasicConstraints.fromRasnE (BasicConstraints.toRasn b) = .ok b) ∧
    (∀ kus : List KeyUsage,
        kuDecodeArr (KeyUsage.toRasn kus) =
          .ok (KeyUsage.msbOrderedKus.map (fun k => kus.contains k))) ∧
    (∀ b : Bytes, (akiFromIssuerSki b).keyIdentifier = some b) ∧
    (∀ l : List ExtendedKeyUsage, (∀ e ∈ l, e.isCustom = false) →
        ∃ oids, ExtendedKeyUsage.toRasnE l = .ok oids ∧
          oids.map ExtendedKeyUsage.fromOid = l) ∧
    (∀ oid : Oid,
        CertificatePolicy.fromPolicyInformationE (CertificatePolicy.asOidPolicy oid) =
          .ok (.oidPolicy oid)) ∧
    (∀ (oid : Oid) (uri : Str), isAsciiStr uri = true →
        (CertificatePolicy.asCspPolicy oid uri).bind
          CertificatePolicy.fromPolicyInformationE = .ok (.cspPolicy oid uri)) ∧
    (∀ (oid : Oid) (nr : Option (Str × List Int)) (et : Option Str),
        (et = none ∨ ∃ s, et = some s ∧ s ≠ [] ∧ strBytes s ≤ 200) →
        (CertificatePolicy.asUserNoticePolicy oid nr et).bind
          CertificatePolicy.fromPolicyInformationE =
            .ok (.userNoticePolicy oid nr et)) ∧
    (∀ v : Str, w.lower v = v → isAsciiStr v = true →
        (∀ p ∈ splitOnChar '.' v, isAsciiStr p = true) →
        (∀ p ∈ splitOnChar '.' v, startsWithXn p = false) →
        (WellKnownGeneralName.toRasnE w .dnsName v).bind
          (WellKnownGeneralName.fromRasnE w) = .ok (some (.dnsName, v))) ∧
    (∀ v : Str, isAsciiStr v = true →
        (WellKnownGeneralName.toRasnE w .uri v).bind
          (WellKnownGeneralName.fromRasnE w) = .ok (some (.uri, v))) :=
  ⟨bc_round_trip, ku_round_trip, fun _ => rfl, eku_list_round_trip,
   policy_oid_round_trip, policy_csp_round_trip, policy_user_notice_round_trip,
   dns_round_trip w, uri_round_trip w⟩

/-- Witness for the amended C5 theorem: concrete round trips of a CPS
policy, a user-notice policy, a DNS name and an EKU list. -/
theorem extension_round_trips_amended_witness :
    (CertificatePolicy.asCspPolicy [1] ['a']).bind
        CertificatePolicy.fromPolicyInformationE = .ok (.cspPolicy [1] ['a']) ∧
    (CertificatePolicy.asUserNoticePolicy [1] none (some ['h', 'i'])).bind
        CertificatePolicy.fromPolicyInformationE =
          .ok (.userNoticePolicy [1] none (some ['h', 'i'])) ∧
    (WellKnownGeneralName.toRasnE wId .dnsName ['a', '.', 'b']).bind
        (WellKnownGeneralName.fromRasnE wId) = .ok (some (.dnsName, ['a', '.', 'b'])) ∧
    ∃ oids, ExtendedKeyUsage.toRasnE [ExtendedKeyUsage.pkixServerAuth] = .ok oids ∧
      oids.map ExtendedKeyUsage.fromOid = [ExtendedKeyUsage.pkixServerAuth] :=
  ⟨(extension_round_trips_amended wId).2.2.2.2.2.1 [1] ['a'] (by decide),
   (extension_round_trips_amended wId).2.2.2.2.2.2.1 [1] none (some ['h', 'i'])
     (Or.inr ⟨['h', 'i'], rfl, by decide, by decide⟩),
   (extension_round_trips_amended wId).2.2.2.2.2.2.2.1 ['a', '.', 'b'] (by decide)
     (by decide) (by decide) (by decide),
   (extension_round_trips_amended wId).2.2.2.1 [ExtendedKeyUsage.pkixServerAuth]
     (by decide)⟩

@[simp] theorem PResult.isOk_ok {α : Type} (a : α) : (PResult.ok a).isOk := trivial

@[simp] theorem PResult.isOk_panic_iff {α : Type} : (PResult.panic : PResult α).isOk ↔ False :=
  Iff.rfl

@[simp] theorem PResult.isOk_map {α β : Type} (f : α → β) (r : PResult α) :
    (r.map f).isOk ↔ r.isOk := by
  cases r <;> simp [PResult.map, PResult.isOk]

theorem pmapList_ok_of_all {α β : Type} (f : α → PResult β) (l : List α)
    (h : ∀ a ∈ l, ∃ b, f a = .ok b) : ∃ r, pmapList f l = .ok r := by
  induction l with
  | nil => exact ⟨[], rfl⟩
  | cons a t ih =>
      obtain ⟨b, hb⟩ := h a (List.mem_cons_self a t)
      obtain ⟨r, hr⟩ := ih (fun x hx => h x (List.mem_cons_of_mem a hx))
      exact ⟨b :: r, by simp [pmapList, hb, hr, PResult.bind, PResult.map]⟩

theorem pfilterMapList_ok_of_all {α β : Type} (f : α → PResult (Option β)) (l : List α)
    (h : ∀ a ∈ l, ∃ ob, f a = .ok ob) : ∃ r, pfilterMapList f l = .ok r := by
  induction l with
  | nil => exact ⟨[], rfl⟩
  | cons a t ih =>
      obtain ⟨ob, hb⟩ := h a (List.mem_cons_self a t)
      obtain ⟨r, hr⟩ := ih (fun x hx => h x (List.mem_cons_of_mem a hx))
      cases ob with
      | none => exact ⟨r, by simp [pfilterMapList, hb, hr, PResult.bind, PResult.map]⟩
      | some b => exact ⟨b :: r, by simp [pfilterMapList, hb, hr, PResult.bind, PResult.map]⟩

theorem extensionsByOid_head_mem (c : RasnCert) (oid : Oid) (e : RasnExtension)
    (h : (extensionsByOid c oid).head? = some e) :
    e ∈ c.extensions.getD [] ∧ e.extnId = oid := by
  have hmem : e ∈ extensionsByOid c oid := by
    cases hl : extensionsByOid c oid with
    | nil => rw [hl] at h; simp at h
    | cons a t =>
        rw [hl] at h
        simp only [List.head?_cons, Option.some.injEq] at h
        subst h
        exact List.mem_cons_self a t
  unfold extensionsByOid at hmem
  have h2 := List.mem_filter.mp hmem
  exact ⟨h2.1, by simpa using h2.2⟩

theorem displayTextAsString_ok (d : DisplayText) (h : dtOk d) :
    ∃ s, displayTextAsString d = .ok s := by
  cases d with
  | ia5 s => exact ⟨s, rfl⟩
  | visible s => exact ⟨s, rfl⟩
  | utf8 s => exact ⟨s, rfl⟩
  | bmp units =>
      simp only [dtOk] at h
      obtain ⟨s, hs⟩ := Option.isSome_iff_exists.mp h
      refine ⟨s, ?_⟩
      simp only [displayTextAsString]
      rw [hs]

theorem integerAsIsizeE_ok (i : RasnInteger) (h : rasnIntIsizeOk i) :
    ∃ v, integerAsIsizeE i = .ok v := by
  cases i with
  | primitive v => exact ⟨v, rfl⟩
  | varBig v =>
      simp only [rasnIntIsizeOk] at h
      simp only [integerAsIsizeE]
      rw [if_neg h]
      split
      · exact ⟨_, rfl⟩
      · exact ⟨_, rfl⟩

theorem fromUserNoticePolicy_ok (oid : Oid) (nr : Option (DisplayText × List RasnInteger))
    (et : Option DisplayText) (h : userNoticeOk nr et) :
    ∃ cp, CertificatePolicy.fromUserNoticePolicy oid (.un nr et) = .ok cp := by
  obtain ⟨het, hnr⟩ := h
  cases et with
  | none =>
      cases nr with
      | none => exact ⟨_, rfl⟩
      | some p =>
          obtain ⟨org, nums⟩ := p
          obtain ⟨horg, hnums⟩ := hnr
          obtain ⟨s, hs⟩ := displayTextAsString_ok org horg
          obtain ⟨vs, hvs⟩ := pmapList_ok_of_all integerAsIsizeE nums
            (fun n hn => integerAsIsizeE_ok n (hnums n hn))
          refine ⟨.userNoticePolicy oid (some (s, vs)) none, ?_⟩
          simp [CertificatePolicy.fromUserNoticePolicy, decodeUserNotice, hs, hvs,
            PResult.bind, PResult.map]
  | some d =>
      obtain ⟨s2, hs2⟩ := displayTextAsString_ok d het
      cases nr with
      | none =>
          refine ⟨.userNoticePolicy oid none (some s2), ?_⟩
          simp [CertificatePolicy.fromUserNoticePolicy, decodeUserNotice, hs2,
            PResult.bind, PResult.map]
      | some p =>
          obtain ⟨org, nums⟩ := p
          obtain ⟨horg, hnums⟩ := hnr
          obtain ⟨s, hs⟩ := displayTextAsString_ok org horg
          obtain ⟨vs, hvs⟩ := pmapList_ok_of_all integerAsIsizeE nums
            (fun n hn => integerAsIsizeE_ok n (hnums n hn))
          refine ⟨.userNoticePolicy oid (some (s, vs)) (some s2), ?_⟩
          simp [CertificatePolicy.fromUserNoticePolicy, decodeUserNotice, hs, hs2, hvs,
            PResult.bind, PResult.map]

theorem fromPolicyInformationE_ok (p : PolicyInformation) (h : policyInfoOk p) :
    ∃ cp, CertificatePolicy.fromPolicyInformationE p = .ok cp := by
  unfold policyInfoOk at h
  have hstep : CertificatePolicy.fromPolicyInformationE p =
      (match p.policyQualifiers with
       | none => PResult.ok (.oidPolicy p.policyIdentifier)
       | some qs => CertificatePolicy.fromPolicyQualifiers p.policyIdentifier qs) := rfl
  cases hq : p.policyQualifiers with
  | none =>
      rw [hstep, hq]
      exact ⟨_, rfl⟩
  | some qs =>
      rw [hq] at h
      rw [hstep, hq]
      cases qs with
      | nil => exact ⟨_, rfl⟩
      | cons q t =>
          show ∃ cp, CertificatePolicy.fromPolicyQualifiers p.policyIdentifier (q :: t) = .ok cp
          simp only [CertificatePolicy.fromPolicyQualifiers]
          rcases h with ⟨hid, d, hqd, hdt⟩ | ⟨hid, nr, et, hqu, hun⟩
          · rw [if_pos hid]
            simp only [CertificatePolicy.fromCspPolicy]
            rw [hqd]
            simp only [decodeDisplayText]
            obtain ⟨s, hs⟩ := displayTextAsString_ok d hdt
            refine ⟨.cspPolicy p.policyIdentifier s, ?_⟩
            rw [hs]
            rfl
          · rw [if_neg (by rw [hid]; decide), if_pos hid, hqu]
            exact fromUserNoticePolicy_ok _ nr et hun

theorem punyDecodeE_ok (w : ExtWorld) (s : Str) (h : punyDecodeOkP w s) :
    ∃ r, punyDecodeE w s = .ok r := by
  have hall : ∀ p ∈ splitOnChar '.' (w.lower s),
      ∃ b, (if startsWithXn p then
              match w.idnaDecode (p.drop 4) with
              | some d => PResult.ok d
              | none => PResult.panic
            else PResult.ok p) = .ok b := by
    intro p hp
    by_cases hx : startsWithXn p = true
    · obtain ⟨d, hd⟩ := Option.isSome_iff_exists.mp (h p hp hx)
      exact ⟨d, by simp [hx, hd]⟩
    · exact ⟨p, by simp [hx]⟩
  obtain ⟨r, hr⟩ := pmapList_ok_of_all _ _ hall
  refine ⟨joinWithChar '.' r, ?_⟩
  unfold punyDecodeE
  rw [hr]
  rfl

theorem gn_fromRasnE_ok (w : ExtWorld) (g : RasnGeneralName) (h : gnOk w g) :
    ∃ o, WellKnownGeneralName.fromRasnE w g = .ok o := by
  cases g with
  | otherName t v => exact ⟨none, rfl⟩
  | rfc822Name s =>
      obtain ⟨hlen, hdec⟩ := h
      obtain ⟨r, hr⟩ := punyDecodeE_ok w _ hdec
      simp only [WellKnownGeneralName.fromRasnE, WellKnownGeneralName.toRfc822Name]
      rw [if_neg (by simp [hlen]), hr]
      exact ⟨_, rfl⟩
  | dnsName s =>
      have h2 : punyDecodeOkP w s := h
      obtain ⟨r, hr⟩ := punyDecodeE_ok w s h2
      simp only [WellKnownGeneralName.fromRasnE, WellKnownGeneralName.toDnsName]
      rw [hr]
      exact ⟨_, rfl⟩
  | x400Address => exact ⟨none, rfl⟩
  | directoryName => exact False.elim h
  | ediPartyName => exact ⟨none, rfl⟩
  | uri s => exact ⟨_, rfl⟩
  | ipAddress b =>
      simp only [WellKnownGeneralName.fromRasnE, WellKnownGeneralName.toIpAddress]
      rw [if_pos (show b.length = 4 ∨ b.length = 16 from h)]
      exact ⟨_, rfl⟩
  | registeredId o => exact ⟨_, rfl⟩

theorem gn_fromRasnE_known_some (w : ExtWorld) (g : RasnGeneralName) (h1 : gnOk w g)
    (h2 : gnKnownKind g) :
    ∃ p, WellKnownGeneralName.fromRasnE w g = .ok (some p) := by
  cases g with
  | otherName t v => exact False.elim h2
  | rfc822Name s =>
      obtain ⟨hlen, hdec⟩ := h1
      obtain ⟨r, hr⟩ := punyDecodeE_ok w _ hdec
      simp only [WellKnownGeneralName.fromRasnE, WellKnownGeneralName.toRfc822Name]
      rw [if_neg (by simp [hlen]), hr]
      exact ⟨_, rfl⟩
  | dnsName s =>
      have h3 : punyDecodeOkP w s := h1
      obtain ⟨r, hr⟩ := punyDecodeE_ok w s h3
      simp only [WellKnownGeneralName.fromRasnE, WellKnownGeneralName.toDnsName]
      rw [hr]
      exact ⟨_, rfl⟩
  | x400Address => exact False.elim h2
  | directoryName => exact False.elim h1
  | ediPartyName => exact False.elim h2
  | uri s => exact ⟨_, rfl⟩
  | ipAddress b =>
      simp only [WellKnownGeneralName.fromRasnE, WellKnownGeneralName.toIpAddress]
      rw [if_pos (show b.length = 4 ∨ b.length = 16 from h1)]
      exact ⟨_, rfl⟩
  | registeredId o => exact ⟨_, rfl⟩

theorem fromAccessDescriptionE_ok (w : ExtWorld) (ad : AccessDescription)
    (h : accessDescOk w ad) :
    ∃ r, AuthorityInfoAccessDescription.fromAccessDescriptionE w ad = .ok r := by
  obtain ⟨h1, h2⟩ := h
  obtain ⟨p, hp⟩ := gn_fromRasnE_known_some w _ h1 h2
  simp only [AuthorityInfoAccessDescription.fromAccessDescriptionE]
  rw [hp]
  simp only [PResult.bind]
  split
  · exact ⟨_, rfl⟩
  · split
    · exact ⟨_, rfl⟩
    · exact ⟨_, rfl⟩

theorem fromRasnEpochSecondsE_ok (t : RasnTime) (h : rasnTimeOk t) :
    ∃ n, fromRasnEpochSecondsE t = .ok n := by
  cases t with
  | utc ts =>
      have h2 : (0 : Int) ≤ ts := h
      simp only [fromRasnEpochSecondsE]
      rw [if_neg (by omega)]
      exact ⟨_, rfl⟩
  | general ts =>
      have h2 : (0 : Int) ≤ ts := h
      simp only [fromRasnEpochSecondsE]
      rw [if_neg (by omega)]
      exact ⟨_, rfl⟩

theorem getValidityE_ok (c : RasnCert) (h : rasnValidityOk c.validity) :
    (getValidityE c).isOk := by
  obtain ⟨h1, h2⟩ := h
  obtain ⟨a, ha⟩ := fromRasnEpochSecondsE_ok _ h1
  obtain ⟨b, hb⟩ := fromRasnEpochSecondsE_ok _ h2
  unfold getValidityE validityFromRasnE
  rw [ha]
  simp only [PResult.bind]
  rw [hb]
  simp [PResult.map]

theorem getBasicConstraintsE_ok (w : ExtWorld) (c : RasnCert)
    (hx : ∀ e ∈ c.extensions.getD [], extnOk w e) :
    (getBasicConstraintsE c).isOk := by
  unfold getBasicConstraintsE
  cases hh : (extensionsByOid c BasicConstraints.oid).head? with
  | none => simp
  | some e =>
      obtain ⟨hmem, hid⟩ := extensionsByOid_head_mem c _ e hh
      obtain ⟨r, hv, hok⟩ := (hx e hmem).1 hid
      simp only []
      rw [hv]
      simp only [PResult.isOk_map]
      unfold BasicConstraints.fromRasnE
      cases hr : r.pathLenConstraint with
      | none => simp
      | some i =>
          unfold bcValOk at hok
          rw [hr] at hok
          cases i with
          | primitive v =>
              have h2 : (0 : Int) ≤ v := hok
              simp only [integerAsUsizeE]
              rw [if_neg (by omega)]
              simp
          | varBig v =>
              simp only [integerAsUsizeE]
              split <;> simp

theorem getKeyUsageE_ok (w : ExtWorld) (c : RasnCert)
    (hx : ∀ e ∈ c.extensions.getD [], extnOk w e) :
    (getKeyUsageE c).isOk := by
  unfold getKeyUsageE
  cases hh : (extensionsByOid c KeyUsage.oid).head? with
  | none => simp
  | some e =>
      obtain ⟨hmem, hid⟩ := extensionsByOid_head_mem c _ e hh
      obtain ⟨bits, hv, hlen⟩ := (hx e hmem).2.1 hid
      simp only []
      rw [hv]
      simp [kuDecodeArr, hlen]

theorem getExtendedKeyUsageE_ok (w : ExtWorld) (c : RasnCert)
    (hx : ∀ e ∈ c.extensions.getD [], extnOk w e) :
    (getExtendedKeyUsageE c).isOk := by
  unfold getExtendedKeyUsageE
  cases hh : (extensionsByOid c ExtendedKeyUsage.extOid).head? with
  | none => simp
  | some e =>
      obtain ⟨hmem, hid⟩ := extensionsByOid_head_mem c _ e hh
      obtain ⟨oids, hv⟩ := (hx e hmem).2.2.1 hid
      simp only []
      rw [hv]
      simp

theorem getAkiKidE_ok (w : ExtWorld) (c : RasnCert)
    (hx : ∀ e ∈ c.extensions.getD [], extnOk w e) :
    (getAuthorityKeyIdentifierKidE c).isOk := by
  unfold getAuthorityKeyIdentifierKidE
  cases hh : (extensionsByOid c akiOid).head? with
  | none => simp
  | some e =>
      obtain ⟨hmem, hid⟩ := extensionsByOid_head_mem c _ e hh
      obtain ⟨v, hv⟩ := (hx e hmem).2.2.2.1 hid
      simp only []
      rw [hv]
      simp

theorem getSkiKidE_ok (w : ExtWorld) (c : RasnCert)
    (hx : ∀ e ∈ c.extensions.getD [], extnOk w e) :
    (getSubjectKeyIdentifierKidE c).isOk := by
  unfold getSubjectKeyIdentifierKidE
  cases hh : (extensionsByOid c skiOid).head? with
  | none => simp
  | some e =>
      obtain ⟨hmem, hid⟩ := extensionsByOid_head_mem c _ e hh
      obtain ⟨kid, hv⟩ := (hx e hmem).2.2.2.2.1 hid
      simp only []
      rw [hv]
      simp

theorem getCertificatePoliciesE_ok (w : ExtWorld) (c : RasnCert)
    (hx : ∀ e ∈ c.extensions.getD [], extnOk w e) :
    (getCertificatePoliciesE c).isOk := by
  unfold getCertificatePoliciesE
  cases hh : (extensionsByOid c CertificatePolicy.extOid).head? with
  | none => simp
  | some e =>
      obtain ⟨hmem, hid⟩ := extensionsByOid_head_mem c _ e hh
      obtain ⟨ps, hv, hall⟩ := (hx e hmem).2.2.2.2.2.1 hid
      simp only []
      rw [hv]
      obtain ⟨r, hr⟩ := pmapList_ok_of_all CertificatePolicy.fromPolicyInformationE ps
        (fun p hp => fromPolicyInformationE_ok p (hall p hp))
      unfold CertificatePolicy.fromRasnPolicies
      simp only []
      rw [hr]
      simp

theorem getAiaE_ok (w : ExtWorld) (c : RasnCert)
    (hx : ∀ e ∈ c.extensions.getD [], extnOk w e) :
    (getAuthorityInformationAccessE w c).isOk := by
  unfold getAuthorityInformationAccessE
  cases hh : (extensionsByOid c AuthorityInfoAccessDescription.extOid).head? with
  | none => simp
  | some e =>
      obtain ⟨hmem, hid⟩ := extensionsByOid_head_mem c _ e hh
      obtain ⟨ads, hv, hall⟩ := (hx e hmem).2.2.2.2.2.2.1 hid
      simp only []
      rw [hv]
      obtain ⟨r, hr⟩ := pmapList_ok_of_all (AuthorityInfoAccessDescription.fromAccessDescriptionE w)
        ads (fun a ha => fromAccessDescriptionE_ok w a (hall a ha))
      unfold AuthorityInfoAccessDescription.fromRasnListE
      simp only []
      rw [hr]
      simp

theorem getAltNameE_ok (w : ExtWorld) (c : RasnCert) (oid : Oid)
    (hso : oid = sanOid ∨ oid = ianOid)
    (hx : ∀ e ∈ c.extensions.getD [], extnOk w e) :
    (getAlternativeNameE w c oid).isOk := by
  unfold getAlternativeNameE
  cases hh : (extensionsByOid c oid).head? with
  | none => simp
  | some e =>
      obtain ⟨hmem, hid⟩ := extensionsByOid_head_mem c _ e hh
      obtain ⟨gs, hv, hall⟩ := (hx e hmem).2.2.2.2.2.2.2
        (by rcases hso with rfl | rfl
            · exact Or.inl hid
            · exact Or.inr hid)
      simp only []
      rw [hv]
      obtain ⟨r, hr⟩ := pfilterMapList_ok_of_all (WellKnownGeneralName.fromRasnE w) gs
        (fun g hg => gn_fromRasnE_ok w g (hall g hg))
      unfold alternativeNameFromRasnE
      simp only []
      rw [hr]
      simp

/-- Claim C10 (counterexample): a certificate the outer codec accepts may
carry a BasicConstraints extension whose value octets are not a
BasicConstraints encoding; `get_basic_constraints` then panics on its
decode `unwrap` instead of returning a value. -/
theorem get_basic_constraints_panics_on_malformed_value :
    getBasicConstraintsE exBadBcCert = .panic := by decide

/-- Claim C10 (amended): the non-DN readers return a value without
failing for every parsed certificate whose validity timestamps are
representable and whose recognised extension values are well-formed
encodings of their announced types (`certReadersWF`); the raw-bytes
readers (fingerprints, serial, encoded TBS/subject/issuer/SPKI, signature
pair, critical-OID list) are total unconditionally by construction. On
malformed inner extension content a typed reader panics instead. -/
theorem parser_readers_total_under_wf (w : ExtWorld) (c : RasnCert)
    (h : certReadersWF w c) :
    (getValidityE c).isOk ∧ (getBasicConstraintsE c).isOk ∧ (getKeyUsageE c).isOk ∧
    (getExtendedKeyUsageE c).isOk ∧ (getAuthorityKeyIdentifierKidE c).isOk ∧
    (getSubjectKeyIdentifierKidE c).isOk ∧ (getCertificatePoliciesE c).isOk ∧
    (getAuthorityInformationAccessE w c).isOk ∧ (getSubjectAlternativeNameE w c).isOk ∧
    (getIssuerAlternativeNameE w c).isOk :=
  ⟨getValidityE_ok c h.1, getBasicConstraintsE_ok w c h.2, getKeyUsageE_ok w c h.2,
   getExtendedKeyUsageE_ok w c h.2, getAkiKidE_ok w c h.2, getSkiKidE_ok w c h.2,
   getCertificatePoliciesE_ok w c h.2, getAiaE_ok w c h.2,
   getAltNameE_ok w c sanOid (Or.inl rfl) h.2, getAltNameE_ok w c ianOid (Or.inr rfl) h.2⟩

/-- Witness for the amended C10 theorem at the concrete CA certificate. -/
theorem parser_readers_total_witness :
    (getValidityE exCaCert).isOk ∧ (getBasicConstraintsE exCaCert).isOk ∧
    (getKeyUsageE exCaCert).isOk ∧ (getExtendedKeyUsageE exCaCert).isOk ∧
    (getAuthorityKeyIdentifierKidE exCaCert).isOk ∧
    (getSubjectKeyIdentifierKidE exCaCert).isOk ∧
    (getCertificatePoliciesE exCaCert).isOk ∧
    (getAuthorityInformationAccessE wId exCaCert).isOk ∧
    (getSubjectAlternativeNameE wId exCaCert).isOk ∧
    (getIssuerAlternativeNameE wId exCaCert).isOk :=
  parser_readers_total_under_wf wId exCaCert
    ⟨⟨le_refl 0, show (0 : Int) ≤ 100 by norm_num⟩, by
      intro e he
      simp only [exCaCert, Option.getD, List.mem_singleton] at he
      subst he
      exact ⟨fun _ => ⟨_, rfl, trivial⟩,
        fun h2 => absurd h2 (by decide), fun h2 => absurd h2 (by decide),
        fun h2 => absurd h2 (by decide), fun h2 => absurd h2 (by decide),
        fun h2 => absurd h2 (by decide), fun h2 => absurd h2 (by decide),
        fun h2 => absurd h2 (by decide)⟩⟩
